import Mathlib

/-!
Adaptive matrix factorisation (`libAMF/AMF/c_AMF.cpp`)

A shallow embedding of the training kernel of `c_AMF.cpp` and proofs of the
properties its specification states.

Modelling conventions.

* `double` and `long double` values are elements of a linear ordered field `α`
  (the theorems about `exp` take `α = ℝ` and `Real.exp`), and the arithmetic
  operations are exact.  The exponential is a parameter `exp : α → α` of the
  definitions, so the definitions stay executable.
* The conversion to `double` of the value `sigmoid` returns is a parameter
  `toDouble : α → α`: the identity for exact real arithmetic, `binary64` for the
  IEEE rounding to the nearest `double`.  The theorems that do not fix it hold
  for every conversion.  Rounding elsewhere is outside the model.
* A `double **` produced by `vector2Matrix` is a flat buffer together with its
  row stride (`Matrix`): row `i` starts at offset `i * col` of the buffer, and a
  write `M[i][j] = v` updates the buffer at `i * col + j`.
* A counted loop `for (int i = 0; i < n; i++) body` is `forLoop n body`; the
  `while` loop is `whileLoop guard body fuel`, which may run out of fuel.
* `rand()` is a stream `rand : Nat → Nat` of non-negative draws; the state counts
  the draws consumed so far.
* `int` counters are natural numbers.
* `lossValue` is a `DoubleValue`: a number, or the infinity or NaN that the division by
  `numSample = 0` produces; the comparisons with the threshold follow the C++ ones.
-/

namespace c_AMF

variable {α : Type} [LinearOrderedField α]

/-- The constant `EPS = 1e-8`. -/
def EPS : α := 1e-8

/-- The helper `sqr(x) = x * x`. -/
def sqr (x : α) : α := x * x

/-- The loop `for (int i = 0; i < n; i++) s = body i s`. -/
def forLoop {σ : Type} (n : Nat) (body : Nat → σ → σ) (s : σ) : σ :=
  (List.range n).foldl (fun acc i => body i acc) s

/-- The loop `while (guard s) s = body s`; `fuel` bounds the number of guard
evaluations, and the result is `none` when it runs out before the guard fails. -/
def whileLoop {σ : Type} (guard : σ → Bool) (body : σ → σ) : Nat → σ → Option σ
  | 0, _ => none
  | fuel + 1, s => if guard s = true then whileLoop guard body fuel (body s) else some s

/-- The function `double sigmoid(long double x)`: the quotient `1 / (1 + exp(-x))`,
converted to `double` on return (`toDouble`; the identity in exact real arithmetic). -/
def sigmoid (toDouble exp : α → α) (x : α) : α := toDouble (1 / (1 + exp (-x)))

/-- The function `grad_sigmoid(x) = 1 / (2 + exp(-x) + exp(x))`. -/
def grad_sigmoid (exp : α → α) (x : α) : α := 1 / (2 + exp (-x) + exp x)

/-- The function `dotProduct(vec1, vec2, len)`: the accumulation loop over
`vec1[i] * vec2[i]`. -/
def dotProduct (vec1 vec2 : Nat → α) (len : Nat) : α :=
  forLoop len (fun i product => product + vec1 i * vec2 i) 0

/-- A `double **` whose row `i` points at offset `i * col` of a flat buffer. -/
structure Matrix (α : Type) where
  /-- The flat buffer the row pointers point into. -/
  data : Nat → α
  /-- The row stride. -/
  col : Nat

/-- The read `M[i][j]`. -/
def Matrix.get (M : Matrix α) (i j : Nat) : α := M.data (i * M.col + j)

/-- The row pointer `M[i]`, as the function `k ↦ M[i][k]`. -/
def Matrix.row (M : Matrix α) (i : Nat) : Nat → α := fun k => M.get i k

/-- The write `M[i][j] = v`. -/
def Matrix.set (M : Matrix α) (i j : Nat) (v : α) : Matrix α :=
  { M with data := Function.update M.data (i * M.col + j) v }

/-- The function `vector2Matrix(vector, row, col)`: row `i` is `vector + i * col`. -/
def vector2Matrix (vector : Nat → α) (_row col : Nat) : Matrix α :=
  { data := vector, col := col }

/-- The function `getPredMatrix`: with `flag` every cell, otherwise every cell
whose observed value passes `fabs(removedMatrix[i][j]) > EPS`, is overwritten
with `sigmoid(dotProduct(U[i], S[j], dim))`. -/
def getPredMatrix (toDouble exp : α → α) (flag : Bool) (removedMatrix U S : Matrix α)
    (numUser numService dim : Nat) (predMatrix : Matrix α) : Matrix α :=
  forLoop numUser (fun i predMatrix =>
    forLoop numService (fun j predMatrix =>
      if flag = true ∨ |removedMatrix.get i j| > EPS then
        predMatrix.set i j (sigmoid toDouble exp (dotProduct (U.row i) (S.row j) dim))
      else predMatrix) predMatrix) predMatrix

/-- The function `loss`: the relative squared error over the observed cells,
then the L2 penalty, accumulated in the order of the source loops. -/
def loss (U S removedMatrix predMatrix : Matrix α) (lmda : α)
    (numUser numService dim : Nat) : α :=
  let loss : α := 0
  let loss := forLoop numUser (fun i loss =>
    forLoop numService (fun j loss =>
      if |removedMatrix.get i j| > EPS then
        loss + 0.5 * sqr ((removedMatrix.get i j - predMatrix.get i j) / removedMatrix.get i j)
      else loss) loss) loss
  forLoop dim (fun k loss =>
    let loss := forLoop numUser (fun i loss => loss + 0.5 * lmda * sqr (U.get i k)) loss
    forLoop numService (fun j loss => loss + 0.5 * lmda * sqr (S.get j k)) loss) loss

/-- The sample vectors `spIndex`, `spValue` and the counter `numSample`. -/
structure Samples (α : Type) where
  /-- The coordinates `(i, j)` pushed so far. -/
  spIndex : List (Nat × Nat)
  /-- The values pushed so far. -/
  spValue : List α
  /-- The counter `numSample`. -/
  numSample : Nat

/-- The extraction loops of `AMF` (lines 44-56): a row-major scan pushing every
cell with `fabs(removedMatrix[i][j]) > EPS`. -/
def extractSamples (removedMatrix : Matrix α) (numUser numService : Nat) : Samples α :=
  forLoop numUser (fun i sp =>
    forLoop numService (fun j sp =>
      if |removedMatrix.get i j| > EPS then
        { spIndex := sp.spIndex ++ [(i, j)],
          spValue := sp.spValue ++ [removedMatrix.get i j],
          numSample := sp.numSample + 1 }
      else sp) sp) { spIndex := [], spValue := [], numSample := 0 }

/-- A `double` that need not be a number: an ordinary value, an infinity, or NaN.  Only a
division by a zero count produces the last three in this development. -/
inductive DoubleValue (α : Type) where
  /-- An ordinary number. -/
  | num (x : α)
  /-- Positive infinity. -/
  | posInf
  /-- Negative infinity. -/
  | negInf
  /-- Not a number. -/
  | nan

/-- The C++ comparison `v > t` of a `double` with a number; it is false on NaN. -/
def DoubleValue.gt (v : DoubleValue α) (t : α) : Prop :=
  match v with
  | .num x => x > t
  | .posInf => True
  | .negInf => False
  | .nan => False

/-- The C++ comparison `v <= t` of a `double` with a number; it is false on NaN. -/
def DoubleValue.le (v : DoubleValue α) (t : α) : Prop :=
  match v with
  | .num x => x ≤ t
  | .posInf => False
  | .negInf => True
  | .nan => False

/-- The comparison `v > t` is decidable. -/
instance DoubleValue.decidableGt (v : DoubleValue α) (t : α) : Decidable (v.gt t) :=
  match v with
  | .num x => inferInstanceAs (Decidable (x > t))
  | .posInf => isTrue trivial
  | .negInf => isFalse not_false
  | .nan => isFalse not_false

/-- The comparison `v <= t` is decidable. -/
instance DoubleValue.decidableLe (v : DoubleValue α) (t : α) : Decidable (v.le t) :=
  match v with
  | .num x => inferInstanceAs (Decidable (x ≤ t))
  | .posInf => isFalse not_false
  | .negInf => isTrue trivial
  | .nan => isFalse not_false

/-- The quotient `x / n` of a `double` by an `int` count (line 116): the number `x / n` when
`n != 0`, and for `n = 0` the IEEE result of dividing by zero: `+inf` for `x > 0`, `-inf` for
`x < 0`, NaN for `x = 0`. -/
def divByCount (x : α) (n : Nat) : DoubleValue α :=
  if n = 0 then
    if 0 < x then .posInf else if x < 0 then .negInf else .nan
  else .num (x / (n : α))

/-- The mutable variables of the training loop of `AMF`. -/
structure State (α : Type) where
  /-- The user factors `U`. -/
  U : Matrix α
  /-- The service factors `S`. -/
  S : Matrix α
  /-- The prediction matrix. -/
  predMatrix : Matrix α
  /-- The user confidences `eu`. -/
  eu : Nat → α
  /-- The service confidences `es`. -/
  es : Nat → α
  /-- The variable `lossValue`. -/
  lossValue : DoubleValue α
  /-- The epoch counter `iter`. -/
  iter : Nat
  /-- The number of `rand()` calls made so far. -/
  draws : Nat

/-- The gradient loop over `k` (lines 103-110), on the pair `(U, S)`. -/
def gradientLoop (dim : Nat) (lmda eta : α) (i j : Nat) (wi wj pValue rValue : α)
    (grad_sigmoid_uv sqr_rValue : α) (US : Matrix α × Matrix α) : Matrix α × Matrix α :=
  forLoop dim (fun k US =>
    let U := US.1
    let S := US.2
    let gradU := wi * (pValue - rValue) * grad_sigmoid_uv * S.get j k / sqr_rValue
      + lmda * U.get i k
    let gradS := wj * (pValue - rValue) * grad_sigmoid_uv * U.get i k / sqr_rValue
      + lmda * S.get j k
    let U := U.set i k (U.get i k - eta * gradU)
    let S := S.set j k (S.get j k - eta * gradS)
    (U, S)) US

/-- The body of the sample loop after the draw (lines 91-110): the confidence
updates followed by the gradient loop, for the sample `(i, j, rValue)`. -/
def sampleUpdate (toDouble exp : α → α) (dim : Nat) (lmda eta beta : α) (i j : Nat) (rValue : α)
    (st : State α) : State α :=
  let uv := dotProduct (st.U.row i) (st.S.row j) dim
  let pValue := sigmoid toDouble exp uv
  let eij := |pValue - rValue| / rValue
  let wi := st.eu i / (st.eu i + st.es j)
  let wj := st.es j / (st.eu i + st.es j)
  let eu := Function.update st.eu i (beta * wi * eij + (1 - beta * wi) * st.eu i)
  let es := Function.update st.es j (beta * wj * eij + (1 - beta * wj) * st.es j)
  let grad_sigmoid_uv := grad_sigmoid exp uv
  let sqr_rValue := sqr rValue
  let US := gradientLoop dim lmda eta i j wi wj pValue rValue grad_sigmoid_uv sqr_rValue
    (st.U, st.S)
  { st with U := US.1, S := US.2, eu := eu, es := es }

/-- One pass of the sample loop (lines 86-110): draw `spId = rand() % numSample`,
look the sample up, and apply `sampleUpdate`. -/
def sampleStep (toDouble exp : α → α) (rand : Nat → Nat) (sp : Samples α) (dim : Nat)
    (lmda eta beta : α) (st : State α) : State α :=
  let spId := rand st.draws % sp.numSample
  let i := (sp.spIndex.getD spId (0, 0)).1
  let j := (sp.spIndex.getD spId (0, 0)).2
  let rValue := sp.spValue.getD spId 0
  sampleUpdate toDouble exp dim lmda eta beta i j rValue { st with draws := st.draws + 1 }

/-- One pass of the `while` body (lines 84-125): `numSample` sample steps, the
observed-only refresh of the prediction matrix, the normalised loss, `iter++`. -/
def epoch (toDouble exp : α → α) (rand : Nat → Nat) (removedMatrix : Matrix α) (sp : Samples α)
    (numUser numService dim : Nat) (lmda eta beta : α) (st : State α) : State α :=
  let st := forLoop sp.numSample (fun _ st => sampleStep toDouble exp rand sp dim lmda eta beta st)
      st
  let predMatrix := getPredMatrix toDouble exp false removedMatrix st.U st.S numUser numService dim
    st.predMatrix
  let lossValue := loss st.U st.S removedMatrix predMatrix lmda numUser numService dim
  let lossValue := divByCount lossValue sp.numSample
  { st with predMatrix := predMatrix, lossValue := lossValue, iter := st.iter + 1 }

/-- The constant `minIter = 30`. -/
def minIter : Nat := 30

/-- The guard of the `while` loop: `lossValue > convergeThreshold || iter < minIter`. -/
def loopGuard (convergeThreshold : α) (st : State α) : Bool :=
  decide (st.lossValue.gt convergeThreshold ∨ st.iter < minIter)

/-- The state of `AMF` on entry to the `while` loop (lines 59-64). -/
def initState (U S predMatrix : Matrix α) : State α :=
  { U := U, S := S, predMatrix := predMatrix, eu := fun _ => 1, es := fun _ => 1,
    lossValue := .num 1e10, iter := 0, draws := 0 }

/-- The function `AMF`: the extraction, the training loop and the final full
refresh of the prediction matrix.  The result is the final state (its `U`, `S`
and `predMatrix` are the output buffers), or `none` when `fuel` guard
evaluations do not reach the exit. -/
def AMF (toDouble exp : α → α) (rand : Nat → Nat) (fuel : Nat) (removedData : Nat → α)
    (numUser numService dim : Nat) (lmda : α) (_maxIter : Nat)
    (convergeThreshold eta beta : α) (_debugMode : Bool)
    (Udata Sdata predData : Nat → α) : Option (State α) :=
  let removedMatrix := vector2Matrix removedData numUser numService
  let U := vector2Matrix Udata numUser dim
  let S := vector2Matrix Sdata numService dim
  let predMatrix := vector2Matrix predData numUser numService
  let sp := extractSamples removedMatrix numUser numService
  match whileLoop (loopGuard convergeThreshold)
      (epoch toDouble exp rand removedMatrix sp numUser numService dim lmda eta beta) fuel
      (initState U S predMatrix) with
  | none => none
  | some st =>
    some { st with predMatrix :=
      getPredMatrix toDouble exp true removedMatrix st.U st.S numUser numService dim st.predMatrix }

/-- The cells of a `numUser × numService` matrix in row-major order (user first,
then service): the order in which the extraction loops visit them. -/
def cells (numUser numService : Nat) : List (Nat × Nat) :=
  (List.range numUser).flatMap (fun i => (List.range numService).map (fun j => (i, j)))

/-- The cells whose observed value passes the test `fabs(value) > EPS`, in
row-major order. -/
def observedCells (removedMatrix : Matrix α) (numUser numService : Nat) : List (Nat × Nat) :=
  (cells numUser numService).filter (fun c => decide (|removedMatrix.get c.1 c.2| > EPS))

/-- The state of `AMF` after `n` passes of the `while` body, started from the
entry state of the loop on the extracted samples (the guard is not consulted). -/
def epochState (toDouble exp : α → α) (rand : Nat → Nat) (removedData : Nat → α)
    (numUser numService dim : Nat) (lmda eta beta : α) (Udata Sdata predData : Nat → α)
    (n : Nat) : State α :=
  (epoch toDouble exp rand (vector2Matrix removedData numUser numService)
      (extractSamples (vector2Matrix removedData numUser numService) numUser numService)
      numUser numService dim lmda eta beta)^[n]
    (initState (vector2Matrix Udata numUser dim) (vector2Matrix Sdata numService dim)
      (vector2Matrix predData numUser numService))

/-! ## Loops and matrix cells -/

theorem forLoop_zero {σ : Type} (body : Nat → σ → σ) (s : σ) : forLoop 0 body s = s := rfl

theorem forLoop_succ {σ : Type} (n : Nat) (body : Nat → σ → σ) (s : σ) :
    forLoop (n + 1) body s = body n (forLoop n body s) := by
  simp [forLoop, List.range_succ, List.foldl_append]

theorem forLoop_invariant {σ : Type} (P : σ → Prop) (n : Nat) (body : Nat → σ → σ) (s : σ)
    (h0 : P s) (hstep : ∀ i t, P t → P (body i t)) : P (forLoop n body s) := by
  induction n with
  | zero => exact h0
  | succ n ih => rw [forLoop_succ]; exact hstep n _ ih

theorem forLoop_add (n : Nat) (f : Nat → α) (s : α) :
    forLoop n (fun i acc => acc + f i) s = s + ∑ i in Finset.range n, f i := by
  induction n with
  | zero => simp [forLoop_zero]
  | succ n ih => rw [forLoop_succ, ih, Finset.sum_range_succ, add_assoc]

theorem ite_add_acc (c : Prop) [Decidable c] (a x : α) :
    (if c then a + x else a) = a + (if c then x else 0) := by
  split <;> simp

theorem whileLoop_eq_some_iff {σ : Type} (guard : σ → Bool) (body : σ → σ) (fuel : Nat)
    (s s' : σ) :
    whileLoop guard body fuel s = some s' ↔
      ∃ n, n < fuel ∧ body^[n] s = s' ∧ guard (body^[n] s) = false ∧
        ∀ m, m < n → guard (body^[m] s) = true := by
  induction fuel generalizing s with
  | zero => simp [whileLoop]
  | succ fuel ih =>
    by_cases hg : guard s = true
    · rw [whileLoop, if_pos hg, ih]
      constructor
      · rintro ⟨n, hn, hs, hgn, hall⟩
        refine ⟨n + 1, by omega, by simpa using hs, by simpa using hgn, ?_⟩
        intro m hm
        cases m with
        | zero => simpa using hg
        | succ m => simpa using hall m (by omega)
      · rintro ⟨n, hn, hs, hgn, hall⟩
        cases n with
        | zero => simp [hg] at hgn
        | succ n =>
          refine ⟨n, by omega, by simpa using hs, by simpa using hgn, ?_⟩
          intro m hm
          simpa using hall (m + 1) (by omega)
    · rw [whileLoop, if_neg hg]
      constructor
      · intro h
        refine ⟨0, by omega, by simpa using h, by simpa using hg, ?_⟩
        intro m hm
        omega
      · rintro ⟨n, hn, hs, hgn, hall⟩
        cases n with
        | zero => simpa using hs
        | succ n => exact absurd (by simpa using hall 0 (by omega)) hg

theorem Matrix.col_set {β : Type} (M : Matrix β) (i j : Nat) (v : β) :
    (M.set i j v).col = M.col := rfl

theorem Matrix.get_set {β : Type} (M : Matrix β) (i j a b : Nat) (v : β) :
    (M.set i j v).get a b = if a * M.col + b = i * M.col + j then v else M.get a b := by
  simp [Matrix.set, Matrix.get, Function.update_apply]

theorem cell_index_inj {c a b i j : Nat} (hb : b < c) (hj : j < c) :
    a * c + b = i * c + j ↔ a = i ∧ b = j := by
  constructor
  · intro h
    have hc : 0 < c := by omega
    have h1 : (a * c + b) / c = a := by
      rw [Nat.add_comm, Nat.add_mul_div_right _ _ hc, Nat.div_eq_of_lt hb, Nat.zero_add]
    have h2 : (i * c + j) / c = i := by
      rw [Nat.add_comm, Nat.add_mul_div_right _ _ hc, Nat.div_eq_of_lt hj, Nat.zero_add]
    have hai : a = i := by rw [← h1, ← h2, h]
    subst hai
    exact ⟨rfl, by omega⟩
  · rintro ⟨rfl, rfl⟩; rfl

theorem Matrix.get_set_cell {β : Type} (M : Matrix β) {i j a b : Nat} (v : β)
    (hj : j < M.col) (hb : b < M.col) :
    (M.set i j v).get a b = if a = i ∧ b = j then v else M.get a b := by
  rw [Matrix.get_set]
  simp only [cell_index_inj hb hj]

theorem fill_row {β : Type} (cond : Nat → Nat → Prop) [∀ i j, Decidable (cond i j)]
    (val : Nat → Nat → β)
    (i m : Nat) (P : Matrix β) (hm : m ≤ P.col) :
    (forLoop m (fun j (P : Matrix β) => if cond i j then P.set i j (val i j) else P) P).col
      = P.col ∧
    ∀ a b, b < P.col →
      (forLoop m (fun j (P : Matrix β) => if cond i j then P.set i j (val i j) else P) P).get a b
        = if a = i ∧ b < m ∧ cond i b then val i b else P.get a b := by
  induction m with
  | zero => simp [forLoop_zero]
  | succ m ih =>
    obtain ⟨hc, hg⟩ := ih (by omega)
    rw [forLoop_succ]
    constructor
    · split
      · rw [Matrix.col_set, hc]
      · exact hc
    · intro a b hb
      by_cases hcond : cond i m
      · rw [if_pos hcond, Matrix.get_set_cell _ _ (by omega) (by omega), hg a b hb]
        by_cases hab : a = i ∧ b = m
        · obtain ⟨rfl, rfl⟩ := hab
          simp [hcond]
        · rw [if_neg hab]
          by_cases h1 : a = i ∧ b < m ∧ cond i b
          · rw [if_pos h1, if_pos ⟨h1.1, by omega, h1.2.2⟩]
          · rw [if_neg h1, if_neg]
            rintro ⟨h2, h3, h4⟩
            by_cases hbm : b = m
            · exact hab ⟨h2, hbm⟩
            · exact h1 ⟨h2, by omega, h4⟩
      · rw [if_neg hcond, hg a b hb]
        by_cases h1 : a = i ∧ b < m ∧ cond i b
        · rw [if_pos h1, if_pos ⟨h1.1, by omega, h1.2.2⟩]
        · rw [if_neg h1, if_neg]
          rintro ⟨h2, h3, h4⟩
          by_cases hbm : b = m
          · subst hbm; exact hcond h4
          · exact h1 ⟨h2, by omega, h4⟩

theorem fill_matrix {β : Type} (cond : Nat → Nat → Prop) [∀ i j, Decidable (cond i j)]
    (val : Nat → Nat → β) (n m : Nat) (P : Matrix β) (hm : m ≤ P.col) :
    (forLoop n (fun i (P : Matrix β) =>
      forLoop m (fun j (P : Matrix β) => if cond i j then P.set i j (val i j) else P) P) P).col
      = P.col ∧
    ∀ a b, b < P.col →
      (forLoop n (fun i (P : Matrix β) =>
        forLoop m (fun j (P : Matrix β) =>
          if cond i j then P.set i j (val i j) else P) P) P).get a b
        = if a < n ∧ b < m ∧ cond a b then val a b else P.get a b := by
  induction n with
  | zero => simp [forLoop_zero]
  | succ n ih =>
    obtain ⟨hc, hg⟩ := ih
    rw [forLoop_succ]
    obtain ⟨hc', hg'⟩ := fill_row cond val n m
      (forLoop n (fun i (P : Matrix β) =>
        forLoop m (fun j (P : Matrix β) => if cond i j then P.set i j (val i j) else P) P) P)
      (by rw [hc]; exact hm)
    refine ⟨hc'.trans hc, ?_⟩
    intro a b hb
    rw [hg' a b (by rw [hc]; exact hb), hg a b hb]
    by_cases han : a = n
    · subst han
      by_cases h : b < m ∧ cond a b
      · rw [if_pos ⟨rfl, h⟩, if_pos ⟨by omega, h⟩]
      · rw [if_neg (fun h' => h h'.2), if_neg (fun h' => (lt_irrefl a) h'.1),
          if_neg (fun h' => h h'.2)]
    · rw [if_neg (fun h' => han h'.1)]
      by_cases h : a < n ∧ b < m ∧ cond a b
      · rw [if_pos h, if_pos ⟨by omega, h.2⟩]
      · rw [if_neg h, if_neg]
        rintro ⟨h1, h2⟩
        exact h ⟨by omega, h2⟩

theorem getPredMatrix_spec (toDouble exp : α → α) (flag : Bool) (removedMatrix U S : Matrix α)
    (numUser numService dim : Nat) (predMatrix : Matrix α) (hcol : numService ≤ predMatrix.col) :
    (getPredMatrix toDouble exp flag removedMatrix U S numUser numService dim predMatrix).col
      = predMatrix.col ∧
    ∀ a b, b < predMatrix.col →
      (getPredMatrix toDouble exp flag removedMatrix U S numUser numService dim predMatrix).get a b
          =
        if a < numUser ∧ b < numService ∧ (flag = true ∨ |removedMatrix.get a b| > EPS) then
          sigmoid toDouble exp (dotProduct (U.row a) (S.row b) dim)
        else predMatrix.get a b :=
  fill_matrix (fun i j => flag = true ∨ |removedMatrix.get i j| > EPS)
    (fun i j => sigmoid toDouble exp (dotProduct (U.row i) (S.row j) dim)) numUser numService
        predMatrix hcol

/-! ## The sample extraction -/

theorem mem_cells {numUser numService : Nat} {c : Nat × Nat} :
    c ∈ cells numUser numService ↔ c.1 < numUser ∧ c.2 < numService := by
  obtain ⟨a, b⟩ := c
  simp only [cells, List.mem_flatMap, List.mem_range, List.mem_map, Prod.mk.injEq]
  constructor
  · rintro ⟨i, hi, j, hj, rfl, rfl⟩; exact ⟨hi, hj⟩
  · rintro ⟨ha, hb⟩; exact ⟨a, ha, b, hb, rfl, rfl⟩

theorem nodup_cells (numUser numService : Nat) : (cells numUser numService).Nodup := by
  unfold cells
  rw [List.nodup_flatMap]
  constructor
  · intro i _
    exact (List.nodup_range numService).map (fun a b h => (Prod.mk.inj h).2)
  · refine (List.nodup_range numUser).imp ?_
    intro a b hab
    simp only [Function.onFun, List.disjoint_left, List.mem_map, List.mem_range]
    rintro c ⟨j, _, rfl⟩ ⟨j', _, h⟩
    exact hab (Prod.mk.inj h).1.symm

theorem mem_observedCells {removedMatrix : Matrix α} {numUser numService : Nat} {c : Nat × Nat} :
    c ∈ observedCells removedMatrix numUser numService ↔
      c.1 < numUser ∧ c.2 < numService ∧ |removedMatrix.get c.1 c.2| > EPS := by
  simp [observedCells, mem_cells, and_assoc]

theorem nodup_observedCells (removedMatrix : Matrix α) (numUser numService : Nat) :
    (observedCells removedMatrix numUser numService).Nodup :=
  (nodup_cells numUser numService).filter _

theorem extract_inner (removedMatrix : Matrix α) (i m : Nat) (sp : Samples α) :
    forLoop m (fun j (sp : Samples α) =>
      if |removedMatrix.get i j| > EPS then
        { spIndex := sp.spIndex ++ [(i, j)],
          spValue := sp.spValue ++ [removedMatrix.get i j],
          numSample := sp.numSample + 1 }
      else sp) sp =
    { spIndex := sp.spIndex ++ (((List.range m).map (fun j => (i, j))).filter
        (fun c => decide (|removedMatrix.get c.1 c.2| > EPS))),
      spValue := sp.spValue ++ ((((List.range m).map (fun j => (i, j))).filter
        (fun c => decide (|removedMatrix.get c.1 c.2| > EPS))).map
          (fun c => removedMatrix.get c.1 c.2)),
      numSample := sp.numSample + (((List.range m).map (fun j => (i, j))).filter
        (fun c => decide (|removedMatrix.get c.1 c.2| > EPS))).length } := by
  induction m with
  | zero => simp [forLoop_zero]
  | succ m ih =>
    rw [forLoop_succ, ih]
    by_cases h : |removedMatrix.get i m| > EPS
    · simp [List.range_succ, List.filter_append, List.filter_cons, h, add_assoc]
    · simp [List.range_succ, List.filter_append, List.filter_cons, h]

theorem extractSamples_eq (removedMatrix : Matrix α) (numUser numService : Nat) :
    extractSamples removedMatrix numUser numService =
      { spIndex := observedCells removedMatrix numUser numService,
        spValue := (observedCells removedMatrix numUser numService).map
          (fun c => removedMatrix.get c.1 c.2),
        numSample := (observedCells removedMatrix numUser numService).length } := by
  unfold extractSamples observedCells cells
  simp only [extract_inner]
  induction numUser with
  | zero => simp [forLoop_zero]
  | succ n ih =>
    rw [forLoop_succ, ih]
    simp [List.range_succ, List.flatMap_append, List.filter_append]

/-! ## The sample step -/

theorem gradientLoop_spec (dim : Nat) (lmda eta : α) (i j : Nat) (wi wj pValue rValue g q : α)
    (U S : Matrix α) :
    (gradientLoop dim lmda eta i j wi wj pValue rValue g q (U, S)).1.col = U.col ∧
    (gradientLoop dim lmda eta i j wi wj pValue rValue g q (U, S)).2.col = S.col ∧
    (∀ k, (gradientLoop dim lmda eta i j wi wj pValue rValue g q (U, S)).1.get i k =
      if k < dim then
        U.get i k - eta * (wi * (pValue - rValue) * g * S.get j k / q + lmda * U.get i k)
      else U.get i k) ∧
    (∀ k, (gradientLoop dim lmda eta i j wi wj pValue rValue g q (U, S)).2.get j k =
      if k < dim then
        S.get j k - eta * (wj * (pValue - rValue) * g * U.get i k / q + lmda * S.get j k)
      else S.get j k) := by
  unfold gradientLoop
  induction dim with
  | zero => simp [forLoop_zero]
  | succ n ih =>
    obtain ⟨hc1, hc2, hU, hS⟩ := ih
    rw [forLoop_succ]
    refine ⟨?_, ?_, ?_, ?_⟩
    · simpa [Matrix.col_set] using hc1
    · simpa [Matrix.col_set] using hc2
    · intro k
      simp only [Matrix.get_set, hc1, hU, hS, lt_irrefl, if_false]
      by_cases hk : k = n
      · subst hk; simp
      · have h1 : ¬ (i * U.col + k = i * U.col + n) := by omega
        rw [if_neg h1]
        by_cases hlt : k < n
        · rw [if_pos hlt, if_pos (by omega)]
        · rw [if_neg hlt, if_neg (by omega)]
    · intro k
      simp only [Matrix.get_set, hc2, hU, hS, lt_irrefl, if_false]
      by_cases hk : k = n
      · subst hk; simp
      · have h1 : ¬ (j * S.col + k = j * S.col + n) := by omega
        rw [if_neg h1]
        by_cases hlt : k < n
        · rw [if_pos hlt, if_pos (by omega)]
        · rw [if_neg hlt, if_neg (by omega)]


/-! ## The training loop -/

theorem sampleLoop_frame (toDouble exp : α → α) (rand : Nat → Nat) (sp : Samples α) (dim : Nat)
    (lmda eta beta : α) (n : Nat) (st : State α) :
    (forLoop n (fun _ st => sampleStep toDouble exp rand sp dim lmda eta beta st) st).iter =
        st.iter ∧
    (forLoop n (fun _ st => sampleStep toDouble exp rand sp dim lmda eta beta st) st).predMatrix
      = st.predMatrix :=
  forLoop_invariant (fun t : State α => t.iter = st.iter ∧ t.predMatrix = st.predMatrix) n
    (fun _ st => sampleStep toDouble exp rand sp dim lmda eta beta st) st
    ⟨rfl, rfl⟩ (fun _ _ h => ⟨h.1, h.2⟩)

theorem epoch_iter (toDouble exp : α → α) (rand : Nat → Nat) (removedMatrix : Matrix α) (sp :
    Samples α)
    (numUser numService dim : Nat) (lmda eta beta : α) (st : State α) :
    (epoch toDouble exp rand removedMatrix sp numUser numService dim lmda eta beta st).iter
      = st.iter + 1 := by
  simp only [epoch]
  rw [(sampleLoop_frame toDouble exp rand sp dim lmda eta beta sp.numSample st).1]

theorem epochs_iter (toDouble exp : α → α) (rand : Nat → Nat) (removedMatrix : Matrix α) (sp :
    Samples α)
    (numUser numService dim : Nat) (lmda eta beta : α) (n : Nat) (st : State α) :
    ((epoch toDouble exp rand removedMatrix sp numUser numService dim lmda eta beta)^[n] st).iter
      = st.iter + n := by
  induction n with
  | zero => rfl
  | succ n ih => rw [Function.iterate_succ_apply', epoch_iter, ih, Nat.add_assoc]

theorem loopGuard_eq_false_iff (convergeThreshold : α) (st : State α) :
    loopGuard convergeThreshold st = false ↔
      ¬ st.lossValue.gt convergeThreshold ∧ minIter ≤ st.iter := by
  simp [loopGuard, not_or]

theorem whileLoop_loopGuard_iff (convergeThreshold : α) (body : State α → State α)
    (s0 : State α) (hiter : ∀ n, (body^[n] s0).iter = n) (fuel : Nat) (s' : State α) :
    whileLoop (loopGuard convergeThreshold) body fuel s0 = some s' ↔
      ∃ n, n < fuel ∧ 30 ≤ n ∧ ¬ (body^[n] s0).lossValue.gt convergeThreshold ∧
        (∀ m, 30 ≤ m → m < n → (body^[m] s0).lossValue.gt convergeThreshold) ∧
        body^[n] s0 = s' := by
  rw [whileLoop_eq_some_iff]
  constructor
  · rintro ⟨n, hn, hs, hg, hall⟩
    rw [loopGuard_eq_false_iff, hiter n] at hg
    refine ⟨n, hn, hg.2, hg.1, ?_, hs⟩
    intro m hm hmn
    have h := hall m hmn
    simp only [loopGuard, decide_eq_true_eq, hiter m, minIter] at h
    rcases h with h | h
    · exact h
    · omega
  · rintro ⟨n, hn, h30, hle, hall, hs⟩
    refine ⟨n, hn, hs, ?_, ?_⟩
    · rw [loopGuard_eq_false_iff, hiter n]
      exact ⟨hle, h30⟩
    · intro m hmn
      simp only [loopGuard, decide_eq_true_eq, hiter m, minIter]
      by_cases hm : m < 30
      · exact Or.inr hm
      · exact Or.inl (hall m (by omega) hmn)

theorem epochState_iter (toDouble exp : α → α) (rand : Nat → Nat) (removedData : Nat → α)
    (numUser numService dim : Nat) (lmda eta beta : α) (Udata Sdata predData : Nat → α)
    (n : Nat) :
    (epochState toDouble exp rand removedData numUser numService dim lmda eta beta Udata Sdata
        predData
      n).iter = n := by
  unfold epochState
  rw [epochs_iter]
  simp [initState]

theorem AMF_eq_some_iff (toDouble exp : α → α) (rand : Nat → Nat) (fuel : Nat) (removedData : Nat →
    α)
    (numUser numService dim : Nat) (lmda : α) (maxIter : Nat)
    (convergeThreshold eta beta : α) (debugMode : Bool) (Udata Sdata predData : Nat → α)
    (res : State α) :
    AMF toDouble exp rand fuel removedData numUser numService dim lmda maxIter convergeThreshold
        eta beta
        debugMode Udata Sdata predData = some res ↔
      ∃ n, n < fuel ∧ 30 ≤ n ∧
        ¬ (epochState toDouble exp rand removedData numUser numService dim lmda eta beta Udata Sdata
          predData n).lossValue.gt convergeThreshold ∧
        (∀ m, 30 ≤ m → m < n →
          (epochState toDouble exp rand removedData numUser numService dim lmda eta beta Udata Sdata
            predData m).lossValue.gt convergeThreshold) ∧
        res = { epochState toDouble exp rand removedData numUser numService dim lmda eta beta Udata
            Sdata
            predData n with
          predMatrix := (getPredMatrix toDouble exp true (vector2Matrix removedData numUser
              numService)
            (epochState toDouble exp rand removedData numUser numService dim lmda eta beta Udata
                Sdata
              predData n).U
            (epochState toDouble exp rand removedData numUser numService dim lmda eta beta Udata
                Sdata
              predData n).S
            numUser numService dim
            (epochState toDouble exp rand removedData numUser numService dim lmda eta beta Udata
                Sdata
              predData n).predMatrix) } := by
  have hiter := epochState_iter toDouble exp rand removedData numUser numService dim lmda eta beta
    Udata Sdata predData
  unfold epochState at hiter ⊢
  unfold AMF
  simp only
  split
  · rename_i hnone
    constructor
    · intro h; exact absurd h (by simp)
    · rintro ⟨n, hn, h30, hle, hall, -⟩
      have := (whileLoop_loopGuard_iff _ _ _ hiter fuel _).mpr ⟨n, hn, h30, hle, hall, rfl⟩
      rw [hnone] at this
      exact absurd this (by simp)
  · rename_i st hst
    obtain ⟨n, hn, h30, hle, hall, hs⟩ := (whileLoop_loopGuard_iff _ _ _ hiter fuel _).mp hst
    constructor
    · intro h
      refine ⟨n, hn, h30, hle, hall, ?_⟩
      rw [hs]
      exact (Option.some.inj h).symm
    · rintro ⟨n', hn', h30', hle', hall', hres⟩
      have hnn : n' = n := by
        rcases Nat.lt_trichotomy n' n with h | h | h
        · exact absurd (hall n' h30' h) hle'
        · exact h
        · exact absurd (hall' n h30 h) hle
      subst hnn
      rw [hres, hs]

theorem epochState_lossValue_succ (toDouble exp : α → α) (rand : Nat → Nat)
    (removedData : Nat → α) (numUser numService dim : Nat) (lmda eta beta : α)
    (Udata Sdata predData : Nat → α) (n : Nat) :
    (epochState toDouble exp rand removedData numUser numService dim lmda eta beta Udata Sdata
      predData (n + 1)).lossValue =
    divByCount
      (loss
        (epochState toDouble exp rand removedData numUser numService dim lmda eta beta Udata
          Sdata predData (n + 1)).U
        (epochState toDouble exp rand removedData numUser numService dim lmda eta beta Udata
          Sdata predData (n + 1)).S
        (vector2Matrix removedData numUser numService)
        (epochState toDouble exp rand removedData numUser numService dim lmda eta beta Udata
          Sdata predData (n + 1)).predMatrix
        lmda numUser numService dim)
      (extractSamples (vector2Matrix removedData numUser numService) numUser
        numService).numSample := by
  unfold epochState
  rw [Function.iterate_succ_apply']
  rfl

theorem sigmoid_pos_real (x : ℝ) : 0 < sigmoid id Real.exp x := by
  unfold sigmoid
  rw [id_eq]
  have := Real.exp_pos (-x)
  positivity

theorem sigmoid_lt_one_real (x : ℝ) : sigmoid id Real.exp x < 1 := by
  unfold sigmoid
  have h := Real.exp_pos (-x)
  rw [id_eq, div_lt_one (by linarith)]
  linarith

/-! ## The conversion to `double` -/

theorem epoch_lossValue_example (rand : Nat → Nat) (sp : Samples ℝ) (st : State ℝ) :
    (epoch id Real.exp rand (vector2Matrix (fun _ => 1 / 2) 1 1) sp 1 1 0 0 1 0 st).lossValue
      = divByCount 0 sp.numSample := by
  have h : |(1 / 2 : ℝ)| > EPS := by norm_num [EPS, abs_of_pos]
  simp only [epoch, loss, getPredMatrix, forLoop, List.range_succ, List.range_zero,
    List.nil_append, List.foldl_cons, List.foldl_nil, dotProduct, sigmoid, Matrix.get_set,
    Matrix.get, vector2Matrix, Matrix.set, sqr, id_eq]
  norm_num [h]

theorem extractSamples_example :
    (extractSamples (vector2Matrix (fun _ => (1 / 2 : ℝ)) 1 1) 1 1).numSample = 1 := by
  have h : |(1 / 2 : ℝ)| > EPS := by norm_num [EPS, abs_of_pos]
  simp only [extractSamples, forLoop, List.range_succ, List.range_zero, List.nil_append,
    List.foldl_cons, List.foldl_nil, Matrix.get, vector2Matrix]
  rw [if_pos h]

theorem AMF_returns_example :
    ∃ res : State ℝ,
      AMF id Real.exp (fun _ => 0) 31 (fun _ => 1 / 2) 1 1 0 0 0 0 1 0 false
        (fun _ => 0) (fun _ => 0) (fun _ => 0) = some res ∧
      res.iter = 30 ∧ res.lossValue = DoubleValue.num 0 := by
  have hl : (epochState id Real.exp (fun _ => 0) (fun _ => 1 / 2) 1 1 0 0 1 0
      (fun _ => 0) (fun _ => 0) (fun _ => 0) 30).lossValue = DoubleValue.num 0 := by
    unfold epochState
    rw [Function.iterate_succ_apply', epoch_lossValue_example, extractSamples_example]
    simp [divByCount]
  refine ⟨_, (AMF_eq_some_iff id Real.exp (fun _ => 0) 31 (fun _ => 1 / 2) 1 1 0 0 0 0 1 0
    false (fun _ => 0) (fun _ => 0) (fun _ => 0) _).mpr
      ⟨30, by decide, le_refl _, ?_, fun m h1 h2 => absurd h1 (by omega), rfl⟩, ?_, ?_⟩
  · rw [hl]
    simp [DoubleValue.gt]
  · exact epochState_iter _ _ _ _ _ _ _ _ _ _ _ _ _ 30
  · exact hl

/-! ## A run on an all-missing matrix

On the `1 × 1` matrix `[[0]]` there is no sample, so with `lambda = 0` the loss of every epoch
is `0` and the loss value is `0.0 / 0`, which is NaN: the guard comparison
`lossValue > convergeThreshold` is false, and `AMF` returns after exactly `30` epochs.  With
`lambda = 1` and `U = S = [[1]]` the loss of every epoch is `1` and the loss value is `1.0 / 0`,
positive infinity: the guard holds after every epoch, and `AMF` returns for no amount of
fuel. -/

theorem extractSamples_missing :
    (extractSamples (vector2Matrix (fun _ => (0 : ℝ)) 1 1) 1 1).numSample = 0 := by
  have h : ¬ |(0 : ℝ)| > EPS := by norm_num [EPS]
  simp only [extractSamples, forLoop, List.range_succ, List.range_zero, List.nil_append,
    List.foldl_cons, List.foldl_nil, Matrix.get, vector2Matrix]
  rw [if_neg h]

theorem epoch_factors_missing (toDouble exp : α → α) (rand : Nat → Nat)
    (removedMatrix : Matrix α) (sp : Samples α) (numUser numService dim : Nat)
    (lmda eta beta : α) (st : State α) (h0 : sp.numSample = 0) :
    (epoch toDouble exp rand removedMatrix sp numUser numService dim lmda eta beta st).U = st.U ∧
    (epoch toDouble exp rand removedMatrix sp numUser numService dim lmda eta beta st).S
      = st.S := by
  simp only [epoch, h0, forLoop_zero]
  exact ⟨trivial, trivial⟩

theorem epochState_factors_missing (n : Nat) :
    (epochState id Real.exp (fun _ => 0) (fun _ => 0) 1 1 1 1 1 0
      (fun _ => 1) (fun _ => 1) (fun _ => 0) n).U = vector2Matrix (fun _ => 1) 1 1 ∧
    (epochState id Real.exp (fun _ => 0) (fun _ => 0) 1 1 1 1 1 0
      (fun _ => 1) (fun _ => 1) (fun _ => 0) n).S = vector2Matrix (fun _ => 1) 1 1 := by
  induction n with
  | zero => exact ⟨rfl, rfl⟩
  | succ n ih =>
    unfold epochState at ih ⊢
    rw [Function.iterate_succ_apply']
    obtain ⟨h1, h2⟩ := epoch_factors_missing id Real.exp (fun _ => 0)
      (vector2Matrix (fun _ => (0 : ℝ)) 1 1)
      (extractSamples (vector2Matrix (fun _ => (0 : ℝ)) 1 1) 1 1) 1 1 1 1 1 0 _
      extractSamples_missing
    exact ⟨h1.trans ih.1, h2.trans ih.2⟩

theorem epochState_lossValue_missing (n : Nat) :
    (epochState id Real.exp (fun _ => 0) (fun _ => 0) 1 1 1 1 1 0
      (fun _ => 1) (fun _ => 1) (fun _ => 0) (n + 1)).lossValue = DoubleValue.posInf := by
  obtain ⟨hU, hS⟩ := epochState_factors_missing (n + 1)
  rw [epochState_lossValue_succ, hU, hS, extractSamples_missing]
  have h : ¬ |(0 : ℝ)| > EPS := by norm_num [EPS]
  simp only [loss, forLoop, List.range_succ, List.range_zero,
    List.nil_append, List.foldl_cons, List.foldl_nil, Matrix.get, vector2Matrix, sqr, divByCount]
  norm_num [h]

theorem AMF_diverges_missing (fuel : Nat) :
    AMF id Real.exp (fun _ => 0) fuel (fun _ => 0) 1 1 1 1 0 1 1 0 false
      (fun _ => 1) (fun _ => 1) (fun _ => 0) = none := by
  cases h : AMF id Real.exp (fun _ => 0) fuel (fun _ => 0) 1 1 1 1 0 1 1 0 false
      (fun _ => 1) (fun _ => 1) (fun _ => 0) with
  | none => rfl
  | some res =>
    obtain ⟨n, -, h30, hgt, -, -⟩ := (AMF_eq_some_iff _ _ _ _ _ _ _ _ _ _ _ _ _ _ _ _ _ _).mp h
    obtain ⟨k, rfl⟩ : ∃ k, n = k + 1 := ⟨n - 1, by omega⟩
    rw [epochState_lossValue_missing k] at hgt
    exact absurd trivial hgt

/-! ## The specified properties -/

/-- C1. One per-sample step (`sampleUpdate`, for the sample `(i, j, r)`) leaves, for
every `k < dim`, `U[i][k] = U0[i][k] - eta * (wi * (p - r) * gradSigmoid(score) * S0[j][k] / r^2
+ lambda * U0[i][k])` and `S[j][k] = S0[j][k] - eta * (wj * (p - r) * gradSigmoid(score) *
U0[i][k] / r^2 + lambda * S0[j][k])`, where everything on the right is read from the state
before the step: `score = dotProduct(U0[i], S0[j])`, `p = sigmoid(score)`,
`wi = eu0[i] / (eu0[i] + es0[j])`, `wj = es0[j] / (eu0[i] + es0[j])`.  The sequential in-place
loop over `k` equals the simultaneous update.  It holds for every `r` (also `r = 0`), every
`dim`, every row stride and every exponential. -/
theorem sampleUpdate_simultaneous (toDouble exp : α → α) (dim : Nat) (lmda eta beta : α) (i j : Nat)
    (r : α) (st : State α) (k : Nat) (hk : k < dim) :
    (sampleUpdate toDouble exp dim lmda eta beta i j r st).U.get i k =
      st.U.get i k - eta *
        (st.eu i / (st.eu i + st.es j)
            * (sigmoid toDouble exp (dotProduct (st.U.row i) (st.S.row j) dim) - r)
            * grad_sigmoid exp (dotProduct (st.U.row i) (st.S.row j) dim)
            * st.S.get j k / r ^ 2
          + lmda * st.U.get i k) ∧
    (sampleUpdate toDouble exp dim lmda eta beta i j r st).S.get j k =
      st.S.get j k - eta *
        (st.es j / (st.eu i + st.es j)
            * (sigmoid toDouble exp (dotProduct (st.U.row i) (st.S.row j) dim) - r)
            * grad_sigmoid exp (dotProduct (st.U.row i) (st.S.row j) dim)
            * st.U.get i k / r ^ 2
          + lmda * st.S.get j k) := by
  obtain ⟨-, -, hU, hS⟩ := gradientLoop_spec dim lmda eta i j
    (st.eu i / (st.eu i + st.es j)) (st.es j / (st.eu i + st.es j))
    (sigmoid toDouble exp (dotProduct (st.U.row i) (st.S.row j) dim)) r
    (grad_sigmoid exp (dotProduct (st.U.row i) (st.S.row j) dim)) (sqr r) st.U st.S
  constructor
  · simp only [sampleUpdate]
    rw [hU k, if_pos hk, sqr, pow_two]
  · simp only [sampleUpdate]
    rw [hS k, if_pos hk, sqr, pow_two]

/-- The step of C1 on a one-dimensional instance: `U = [[0]]`, `S = [[1]]`, `r = 1`,
`eta = 1`, `lambda = 0`, unit confidences; the new `U[0][0]` is `1 / 16` and `S[0][0]` stays
`1`. -/
theorem sampleUpdate_simultaneous_witness :
    (0 : Nat) < 1 ∧
    (sampleUpdate id Real.exp 1 0 1 0 0 0 1
      { U := vector2Matrix (fun _ => 0) 1 1, S := vector2Matrix (fun _ => 1) 1 1,
        predMatrix := vector2Matrix (fun _ => 0) 1 1, eu := fun _ => 1, es := fun _ => 1,
        lossValue := .num 0, iter := 0, draws := 0 }).U.get 0 0 = 1 / 16 ∧
    (sampleUpdate id Real.exp 1 0 1 0 0 0 1
      { U := vector2Matrix (fun _ => 0) 1 1, S := vector2Matrix (fun _ => 1) 1 1,
        predMatrix := vector2Matrix (fun _ => 0) 1 1, eu := fun _ => 1, es := fun _ => 1,
        lossValue := .num 0, iter := 0, draws := 0 }).S.get 0 0 = 1 :=
  ⟨by decide,
    (sampleUpdate_simultaneous id Real.exp 1 0 1 0 0 0 1
      { U := vector2Matrix (fun _ => 0) 1 1, S := vector2Matrix (fun _ => 1) 1 1,
        predMatrix := vector2Matrix (fun _ => 0) 1 1, eu := fun _ => 1, es := fun _ => 1,
        lossValue := .num 0, iter := 0, draws := 0 } 0 (by decide)).1.trans
      (by norm_num [sigmoid, grad_sigmoid, dotProduct, forLoop, Matrix.row, Matrix.get,
        vector2Matrix, List.range_succ]),
    (sampleUpdate_simultaneous id Real.exp 1 0 1 0 0 0 1
      { U := vector2Matrix (fun _ => 0) 1 1, S := vector2Matrix (fun _ => 1) 1 1,
        predMatrix := vector2Matrix (fun _ => 0) 1 1, eu := fun _ => 1, es := fun _ => 1,
        lossValue := .num 0, iter := 0, draws := 0 } 0 (by decide)).2.trans
      (by norm_num [sigmoid, grad_sigmoid, dotProduct, forLoop, Matrix.row, Matrix.get,
        vector2Matrix, List.range_succ])⟩

/-- C2. One per-sample step sets `eu[i]` to `beta * wi * eij + (1 - beta * wi) * eu0[i]` and
`es[j]` to `beta * wj * eij + (1 - beta * wj) * es0[j]`, with `eij = |p - r| / r`,
`p = sigmoid(dotProduct(U0[i], S0[j]))`, `wi = eu0[i] / (eu0[i] + es0[j])` and
`wj = es0[j] / (eu0[i] + es0[j])` all read from the state before the step: the update of
`es[j]` uses the old `eu0[i]`, not the freshly written `eu[i]`. -/
theorem sampleUpdate_confidence (toDouble exp : α → α) (dim : Nat) (lmda eta beta : α) (i j : Nat)
    (r : α) (st : State α) :
    (sampleUpdate toDouble exp dim lmda eta beta i j r st).eu i =
      beta * (st.eu i / (st.eu i + st.es j))
          * (|sigmoid toDouble exp (dotProduct (st.U.row i) (st.S.row j) dim) - r| / r)
        + (1 - beta * (st.eu i / (st.eu i + st.es j))) * st.eu i ∧
    (sampleUpdate toDouble exp dim lmda eta beta i j r st).es j =
      beta * (st.es j / (st.eu i + st.es j))
          * (|sigmoid toDouble exp (dotProduct (st.U.row i) (st.S.row j) dim) - r| / r)
        + (1 - beta * (st.es j / (st.eu i + st.es j))) * st.es j := by
  simp [sampleUpdate]

/-- C3. The value of `loss` is `0.5` times the sum, over the cells `(i, j)` with
`|R[i][j]| > EPS`, of `((R[i][j] - P[i][j]) / R[i][j])^2`, plus `0.5 * lambda` times the sum of
the squares of all entries of `U` and of `S`; cells with `|R[i][j]| <= EPS` contribute
nothing. -/
theorem loss_eq_sum (U S removedMatrix predMatrix : Matrix α) (lmda : α)
    (numUser numService dim : Nat) :
    loss U S removedMatrix predMatrix lmda numUser numService dim =
      0.5 * (∑ i in Finset.range numUser, ∑ j in Finset.range numService,
          if |removedMatrix.get i j| > EPS then
            ((removedMatrix.get i j - predMatrix.get i j) / removedMatrix.get i j) ^ 2
          else 0)
      + 0.5 * lmda * ((∑ i in Finset.range numUser, ∑ k in Finset.range dim, (U.get i k) ^ 2)
          + ∑ j in Finset.range numService, ∑ k in Finset.range dim, (S.get j k) ^ 2) := by
  unfold loss
  simp only [ite_add_acc, forLoop_add, add_assoc, zero_add, sqr]
  rw [Finset.sum_comm (s := Finset.range numUser) (t := Finset.range dim),
    Finset.sum_comm (s := Finset.range numService) (t := Finset.range dim)]
  rw [← Finset.sum_add_distrib, Finset.mul_sum, Finset.mul_sum, Finset.sum_add_distrib]
  congr 1
  · apply Finset.sum_congr rfl
    intro i _
    rw [Finset.mul_sum]
    apply Finset.sum_congr rfl
    intro j _
    split <;> simp [pow_two]
  · rw [← Finset.sum_add_distrib]
    apply Finset.sum_congr rfl
    intro k _
    rw [mul_add, Finset.mul_sum, Finset.mul_sum]
    congr 1 <;> (apply Finset.sum_congr rfl; intro _ _; rw [pow_two])

/-- C4. The sample extraction: `spIndex` and `spValue` both have length `numSample`;
`numSample` is the number of cells `(i, j)`, `i < numUser`, `j < numService`, with
`|R[i][j]| > EPS`; every sample `s < numSample` has its indices in bounds, its value equal to
`R[i][j]` and `|value| > EPS`; every cell with `|R[i][j]| > EPS` is the cell of exactly one
sample; and a cell is among the samples iff it is in bounds and `|R[i][j]| > EPS`. -/
theorem extractSamples_complete (removedMatrix : Matrix α) (numUser numService : Nat) :
    (extractSamples removedMatrix numUser numService).spIndex.length =
        (extractSamples removedMatrix numUser numService).numSample ∧
    (extractSamples removedMatrix numUser numService).spValue.length =
        (extractSamples removedMatrix numUser numService).numSample ∧
    (extractSamples removedMatrix numUser numService).numSample =
        ((Finset.range numUser ×ˢ Finset.range numService).filter
          (fun c => |removedMatrix.get c.1 c.2| > EPS)).card ∧
    (∀ s, s < (extractSamples removedMatrix numUser numService).numSample →
      ((extractSamples removedMatrix numUser numService).spIndex.getD s (0, 0)).1 < numUser ∧
      ((extractSamples removedMatrix numUser numService).spIndex.getD s (0, 0)).2 < numService ∧
      (extractSamples removedMatrix numUser numService).spValue.getD s 0 =
        removedMatrix.get
          ((extractSamples removedMatrix numUser numService).spIndex.getD s (0, 0)).1
          ((extractSamples removedMatrix numUser numService).spIndex.getD s (0, 0)).2 ∧
      |(extractSamples removedMatrix numUser numService).spValue.getD s 0| > EPS) ∧
    (∀ i j, i < numUser → j < numService → |removedMatrix.get i j| > EPS →
      ∃! s, s < (extractSamples removedMatrix numUser numService).numSample ∧
        (extractSamples removedMatrix numUser numService).spIndex.getD s (0, 0) = (i, j)) ∧
    (∀ i j, (i, j) ∈ (extractSamples removedMatrix numUser numService).spIndex ↔
      i < numUser ∧ j < numService ∧ |removedMatrix.get i j| > EPS) := by
  rw [extractSamples_eq]
  have hnd := nodup_observedCells removedMatrix numUser numService
  refine ⟨by simp, by simp, ?_, ?_, ?_, ?_⟩
  · show (observedCells removedMatrix numUser numService).length = _
    rw [← List.toFinset_card_of_nodup hnd]
    congr 1
    ext c
    simp [mem_observedCells, and_assoc]
  · intro s hs
    have hs' : s < (observedCells removedMatrix numUser numService).length := hs
    have hmem : (observedCells removedMatrix numUser numService)[s] ∈
        observedCells removedMatrix numUser numService := List.getElem_mem _
    obtain ⟨h1, h2, h3⟩ := mem_observedCells.mp hmem
    have hv : ((observedCells removedMatrix numUser numService).map
        (fun c => removedMatrix.get c.1 c.2)).getD s 0 =
        removedMatrix.get (observedCells removedMatrix numUser numService)[s].1
          (observedCells removedMatrix numUser numService)[s].2 := by
      rw [List.getD_eq_getElem _ _ (by simpa using hs')]
      simp
    simp only [List.getD_eq_getElem _ _ hs', hv]
    exact ⟨h1, h2, trivial, h3⟩
  · intro i j hi hj hobs
    have hmem : (i, j) ∈ observedCells removedMatrix numUser numService :=
      mem_observedCells.mpr ⟨hi, hj, hobs⟩
    obtain ⟨s, hs, hget⟩ := List.getElem_of_mem hmem
    refine ⟨s, ⟨hs, ?_⟩, ?_⟩
    · show (observedCells removedMatrix numUser numService).getD s (0, 0) = (i, j)
      rw [List.getD_eq_getElem _ _ hs, hget]
    · rintro t ⟨ht, hgt⟩
      have ht' : t < (observedCells removedMatrix numUser numService).length := ht
      have hgt' : (observedCells removedMatrix numUser numService).getD t (0, 0) = (i, j) := hgt
      rw [List.getD_eq_getElem _ _ ht'] at hgt'
      exact (List.Nodup.getElem_inj_iff hnd).mp (hgt'.trans hget.symm)
  · intro i j
    exact mem_observedCells

/-- C5. The outer loop of `AMF` never exits before `minIter = 30` epochs are completed,
whatever the inputs, the draws, the loss and the threshold: after `n < 30` epochs the loop
guard holds; with room for at most `30` guard evaluations `AMF` has not returned; and whenever
`AMF` returns, its epoch counter is at least `30` and the returned factors are those after
that many epochs. -/
theorem AMF_convergence_floor (toDouble exp : α → α) (rand : Nat → Nat) (removedData : Nat → α)
    (numUser numService dim : Nat) (lmda : α) (maxIter : Nat)
    (convergeThreshold eta beta : α) (debugMode : Bool) (Udata Sdata predData : Nat → α) :
    (∀ n, n < 30 →
      loopGuard convergeThreshold
        (epochState toDouble exp rand removedData numUser numService dim lmda eta beta Udata Sdata
          predData n) = true) ∧
    (∀ fuel, fuel ≤ 30 →
      AMF toDouble exp rand fuel removedData numUser numService dim lmda maxIter convergeThreshold
          eta
        beta debugMode Udata Sdata predData = none) ∧
    (∀ fuel res,
      AMF toDouble exp rand fuel removedData numUser numService dim lmda maxIter convergeThreshold
          eta
        beta debugMode Udata Sdata predData = some res →
      30 ≤ res.iter ∧ res.iter < fuel ∧
      res.U = (epochState toDouble exp rand removedData numUser numService dim lmda eta beta Udata
        Sdata predData res.iter).U ∧
      res.S = (epochState toDouble exp rand removedData numUser numService dim lmda eta beta Udata
        Sdata predData res.iter).S) := by
  have hsome : ∀ fuel res,
      AMF toDouble exp rand fuel removedData numUser numService dim lmda maxIter convergeThreshold
          eta
        beta debugMode Udata Sdata predData = some res →
      30 ≤ res.iter ∧ res.iter < fuel ∧
      res.U = (epochState toDouble exp rand removedData numUser numService dim lmda eta beta Udata
        Sdata predData res.iter).U ∧
      res.S = (epochState toDouble exp rand removedData numUser numService dim lmda eta beta Udata
        Sdata predData res.iter).S := by
    intro fuel res h
    obtain ⟨n, hn, h30, -, -, hres⟩ := (AMF_eq_some_iff _ _ _ _ _ _ _ _ _ _ _ _ _ _ _ _ _ _).mp h
    have hi : res.iter = n := by
      rw [hres]
      exact epochState_iter toDouble exp rand removedData numUser numService dim lmda eta beta Udata
        Sdata predData n
    rw [hi]
    refine ⟨h30, hn, ?_, ?_⟩ <;> rw [hres]
  refine ⟨?_, ?_, hsome⟩
  · intro n hn
    simp only [loopGuard, decide_eq_true_eq, epochState_iter, minIter]
    exact Or.inr hn
  · intro fuel hfuel
    cases h : AMF toDouble exp rand fuel removedData numUser numService dim lmda maxIter
        convergeThreshold eta beta debugMode Udata Sdata predData with
    | none => rfl
    | some res =>
      obtain ⟨h1, h2, -⟩ := hsome fuel res h
      omega

/-- The floor of C5 on the terminating run: `AMF` returns with fuel `31`, and its epoch
counter is at least `30`. -/
theorem AMF_convergence_floor_witness :
    ∃ res : State ℝ,
      AMF id Real.exp (fun _ => 0) 31 (fun _ => 1 / 2) 1 1 0 0 0 0 1 0 false
        (fun _ => 0) (fun _ => 0) (fun _ => 0) = some res ∧
      30 ≤ res.iter ∧ res.iter < 31 :=
  AMF_returns_example.elim fun res h =>
    ⟨res, h.1,
      ((AMF_convergence_floor id Real.exp (fun _ => 0) (fun _ => 1 / 2) 1 1 0 0 0 0 1 0 false
        (fun _ => 0) (fun _ => 0) (fun _ => 0)).2.2 31 res h.1).1,
      ((AMF_convergence_floor id Real.exp (fun _ => 0) (fun _ => 1 / 2) 1 1 0 0 0 0 1 0 false
        (fun _ => 0) (fun _ => 0) (fun _ => 0)).2.2 31 res h.1).2.1⟩

/-- C8. For fixed `U`, `S`, `R` and initial prediction buffer: at an observed cell
(`|R[i][j]| > EPS`) `getPredMatrix` with `flag = false` writes the same value as with
`flag = true`, namely `sigmoid(dotProduct(U[i], S[j], dim))`; at an unobserved cell
(`|R[i][j]| <= EPS`) `flag = false` keeps the previous value; and the cells passing the test
are exactly the cells of the extracted samples. -/
theorem getPredMatrix_observed_only (toDouble exp : α → α) (removedMatrix U S : Matrix α)
    (numUser numService dim : Nat) (predData : Nat → α) (i j : Nat)
    (hi : i < numUser) (hj : j < numService) :
    (|removedMatrix.get i j| > EPS →
      (getPredMatrix toDouble exp false removedMatrix U S numUser numService dim
          (vector2Matrix predData numUser numService)).get i j
        = (getPredMatrix toDouble exp true removedMatrix U S numUser numService dim
          (vector2Matrix predData numUser numService)).get i j ∧
      (getPredMatrix toDouble exp false removedMatrix U S numUser numService dim
          (vector2Matrix predData numUser numService)).get i j
        = sigmoid toDouble exp (dotProduct (U.row i) (S.row j) dim)) ∧
    (|removedMatrix.get i j| ≤ EPS →
      (getPredMatrix toDouble exp false removedMatrix U S numUser numService dim
          (vector2Matrix predData numUser numService)).get i j
        = (vector2Matrix predData numUser numService).get i j) ∧
    ((i, j) ∈ (extractSamples removedMatrix numUser numService).spIndex ↔
      |removedMatrix.get i j| > EPS) := by
  have hspec : ∀ flag : Bool,
      (getPredMatrix toDouble exp flag removedMatrix U S numUser numService dim
          (vector2Matrix predData numUser numService)).get i j
        = if i < numUser ∧ j < numService ∧ (flag = true ∨ |removedMatrix.get i j| > EPS) then
            sigmoid toDouble exp (dotProduct (U.row i) (S.row j) dim)
          else (vector2Matrix predData numUser numService).get i j := fun flag =>
    (getPredMatrix_spec toDouble exp flag removedMatrix U S numUser numService dim
      (vector2Matrix predData numUser numService) (le_refl _)).2 i j hj
  refine ⟨?_, ?_, ?_⟩
  · intro hobs
    rw [hspec false, hspec true, if_pos ⟨hi, hj, Or.inr hobs⟩, if_pos ⟨hi, hj, Or.inl rfl⟩]
    exact ⟨rfl, rfl⟩
  · intro hmiss
    rw [hspec false, if_neg]
    rintro ⟨-, -, h | h⟩
    · exact Bool.false_ne_true h
    · exact absurd h (not_lt.mpr hmiss)
  · rw [extractSamples_eq]
    show (i, j) ∈ observedCells removedMatrix numUser numService ↔ _
    rw [mem_observedCells]
    exact ⟨fun h => h.2.2, fun h => ⟨hi, hj, h⟩⟩

/-- The observed-only refresh of C8 on a `1 × 2` instance whose cell `(0, 0)` is
observed (value `1 / 2`): with `U[0] = [0]` the cell receives `sigmoid(0) = 1 / 2`. -/
theorem getPredMatrix_observed_only_witness :
    (0 : Nat) < 1 ∧ (0 : Nat) < 2 ∧
    (getPredMatrix id Real.exp false (vector2Matrix (fun n => if n = 0 then 1 / 2 else 0) 1 2)
      (vector2Matrix (fun _ => 0) 1 1) (vector2Matrix (fun _ => 3) 2 1) 1 2 1
      (vector2Matrix (fun _ => 7) 1 2)).get 0 0 = 1 / 2 :=
  ⟨by decide, by decide,
    ((getPredMatrix_observed_only id Real.exp
      (vector2Matrix (fun n => if n = 0 then 1 / 2 else 0) 1 2)
      (vector2Matrix (fun _ => 0) 1 1) (vector2Matrix (fun _ => 3) 2 1) 1 2 1
      (fun _ => 7) 0 0 (by decide) (by decide)).1
      (by norm_num [Matrix.get, vector2Matrix, EPS, abs_of_pos])).2.trans
      (by norm_num [sigmoid, dotProduct, forLoop, Matrix.row, Matrix.get, vector2Matrix,
        List.range_succ])⟩

/-- C9. Over the reals, `0 < sigmoid(x) < 1` for every `x`, and `sigmoid(0) = 0.5`. -/
theorem sigmoid_bounds (x : ℝ) :
    0 < sigmoid id Real.exp x ∧ sigmoid id Real.exp x < 1 ∧ sigmoid id Real.exp 0 = 0.5 := by
  refine ⟨sigmoid_pos_real x, sigmoid_lt_one_real x, ?_⟩
  norm_num [sigmoid]

/-- C10. Over the reals, `grad_sigmoid(x) = sigmoid(x) * (1 - sigmoid(x))` for every `x`. -/
theorem grad_sigmoid_eq (x : ℝ) :
    grad_sigmoid Real.exp x = sigmoid id Real.exp x * (1 - sigmoid id Real.exp x) := by
  unfold grad_sigmoid sigmoid
  have h := Real.exp_pos (-x)
  have h2 := Real.exp_pos x
  have h3 : Real.exp (-x) * Real.exp x = 1 := by rw [← Real.exp_add]; simp
  have e : Real.exp x = 1 / Real.exp (-x) := by field_simp; linarith
  rw [e]
  field_simp
  ring

/-! ## Further lemmas on the extraction, the sample step and the loss -/

theorem pairwise_cells (numUser numService : Nat) :
    (cells numUser numService).Pairwise
      (fun c d => c.1 < d.1 ∨ (c.1 = d.1 ∧ c.2 < d.2)) := by
  unfold cells
  rw [List.pairwise_flatMap]
  constructor
  · intro i _
    rw [List.pairwise_map]
    exact (List.pairwise_lt_range numService).imp (fun h => Or.inr ⟨rfl, h⟩)
  · refine (List.pairwise_lt_range numUser).imp ?_
    intro a b hab c hc d hd
    simp only [List.mem_map, List.mem_range] at hc hd
    obtain ⟨_, _, rfl⟩ := hc
    obtain ⟨_, _, rfl⟩ := hd
    exact Or.inl hab

theorem observedCells_congr (R R' : Matrix α) (numUser numService : Nat)
    (h : ∀ i j, i < numUser → j < numService → R'.get i j = R.get i j) :
    observedCells R' numUser numService = observedCells R numUser numService := by
  unfold observedCells
  apply List.filter_congr
  intro c hc
  obtain ⟨h1, h2⟩ := mem_cells.mp hc
  rw [h c.1 c.2 h1 h2]

theorem Matrix.data_set {β : Type} (M : Matrix β) (i j idx : Nat) (v : β) :
    (M.set i j v).data idx = if idx = i * M.col + j then v else M.data idx := by
  simp [Matrix.set, Function.update_apply]

theorem gradientLoop_frame (dim : Nat) (lmda eta : α) (i j : Nat) (wi wj pValue rValue g q : α)
    (U S : Matrix α) :
    (gradientLoop dim lmda eta i j wi wj pValue rValue g q (U, S)).1.col = U.col ∧
    (gradientLoop dim lmda eta i j wi wj pValue rValue g q (U, S)).2.col = S.col ∧
    (∀ idx, (∀ k, k < dim → idx ≠ i * U.col + k) →
      (gradientLoop dim lmda eta i j wi wj pValue rValue g q (U, S)).1.data idx = U.data idx) ∧
    (∀ idx, (∀ k, k < dim → idx ≠ j * S.col + k) →
      (gradientLoop dim lmda eta i j wi wj pValue rValue g q (U, S)).2.data idx
        = S.data idx) := by
  unfold gradientLoop
  induction dim with
  | zero => simp [forLoop_zero]
  | succ n ih =>
    obtain ⟨hc1, hc2, hU, hS⟩ := ih
    rw [forLoop_succ]
    refine ⟨?_, ?_, ?_, ?_⟩
    · simpa [Matrix.col_set] using hc1
    · simpa [Matrix.col_set] using hc2
    · intro idx hidx
      simp only [Matrix.data_set, hc1]
      rw [if_neg (hidx n (Nat.lt_succ_self n))]
      exact hU idx (fun k hk => hidx k (Nat.lt_succ_of_lt hk))
    · intro idx hidx
      simp only [Matrix.data_set, hc2]
      rw [if_neg (hidx n (Nat.lt_succ_self n))]
      exact hS idx (fun k hk => hidx k (Nat.lt_succ_of_lt hk))

theorem gradientLoop_other_rows (dim : Nat) (lmda eta : α) (i j : Nat)
    (wi wj pValue rValue g q : α) (U S : Matrix α) (hU : dim ≤ U.col) (hS : dim ≤ S.col) :
    (∀ a b, a ≠ i → b < U.col →
      (gradientLoop dim lmda eta i j wi wj pValue rValue g q (U, S)).1.get a b = U.get a b) ∧
    (∀ a b, a ≠ j → b < S.col →
      (gradientLoop dim lmda eta i j wi wj pValue rValue g q (U, S)).2.get a b = S.get a b) := by
  obtain ⟨hc1, hc2, h1, h2⟩ := gradientLoop_frame dim lmda eta i j wi wj pValue rValue g q U S
  constructor
  · intro a b ha hb
    unfold Matrix.get
    rw [hc1]
    apply h1
    intro k hk heq
    exact ha ((cell_index_inj hb (lt_of_lt_of_le hk hU)).mp heq).1
  · intro a b ha hb
    unfold Matrix.get
    rw [hc2]
    apply h2
    intro k hk heq
    exact ha ((cell_index_inj hb (lt_of_lt_of_le hk hS)).mp heq).1

theorem Matrix.ext_data {β : Type} (M N : Matrix β) (hc : M.col = N.col)
    (hd : ∀ idx, M.data idx = N.data idx) : M = N := by
  cases M
  cases N
  simp only [Matrix.mk.injEq]
  exact ⟨funext hd, hc⟩

theorem gradientLoop_fixed (dim : Nat) (eta : α) (i j : Nat) (wi wj pValue g q : α)
    (U S : Matrix α) :
    gradientLoop dim 0 eta i j wi wj pValue pValue g q (U, S) = (U, S) := by
  obtain ⟨hc1, hc2, hU, hS⟩ := gradientLoop_spec dim 0 eta i j wi wj pValue pValue g q U S
  obtain ⟨-, -, fU, fS⟩ := gradientLoop_frame dim 0 eta i j wi wj pValue pValue g q U S
  apply Prod.ext
  · apply Matrix.ext_data _ _ hc1
    intro idx
    by_cases h : ∃ k, k < dim ∧ idx = i * U.col + k
    · obtain ⟨k, hk, rfl⟩ := h
      have := hU k
      rw [if_pos hk] at this
      unfold Matrix.get at this
      rw [hc1] at this
      rw [this]
      simp
    · exact fU idx (fun k hk heq => h ⟨k, hk, heq⟩)
  · apply Matrix.ext_data _ _ hc2
    intro idx
    by_cases h : ∃ k, k < dim ∧ idx = j * S.col + k
    · obtain ⟨k, hk, rfl⟩ := h
      have := hS k
      rw [if_pos hk] at this
      unfold Matrix.get at this
      rw [hc2] at this
      rw [this]
      simp
    · exact fS idx (fun k hk heq => h ⟨k, hk, heq⟩)

theorem EPS_pos : (0 : α) < EPS := by
  norm_num [EPS]

theorem convex_between (t a b : α) (h0 : 0 ≤ t) (h1 : t ≤ 1) :
    min a b ≤ t * a + (1 - t) * b ∧ t * a + (1 - t) * b ≤ max a b := by
  rcases le_total a b with h | h
  · rw [min_eq_left h, max_eq_right h]
    constructor <;> nlinarith
  · rw [min_eq_right h, max_eq_left h]
    constructor <;> nlinarith

theorem confidence_step (beta e0 e1 eij : α) (hb0 : 0 ≤ beta) (hb1 : beta ≤ 1)
    (h0 : 0 < e0) (h1 : 0 < e1) (he : 0 ≤ eij) :
    min eij e0 ≤ beta * (e0 / (e0 + e1)) * eij + (1 - beta * (e0 / (e0 + e1))) * e0 ∧
    beta * (e0 / (e0 + e1)) * eij + (1 - beta * (e0 / (e0 + e1))) * e0 ≤ max eij e0 ∧
    0 < beta * (e0 / (e0 + e1)) * eij + (1 - beta * (e0 / (e0 + e1))) * e0 := by
  have hsum : 0 < e0 + e1 := add_pos h0 h1
  have hw0 : 0 < e0 / (e0 + e1) := div_pos h0 hsum
  have hw1 : e0 / (e0 + e1) < 1 := by rw [div_lt_one hsum]; linarith
  have ht0 : 0 ≤ beta * (e0 / (e0 + e1)) := mul_nonneg hb0 (le_of_lt hw0)
  have ht1 : beta * (e0 / (e0 + e1)) < 1 := by nlinarith
  obtain ⟨hmin, hmax⟩ := convex_between (beta * (e0 / (e0 + e1))) eij e0 ht0 (le_of_lt ht1)
  refine ⟨hmin, hmax, ?_⟩
  have : 0 < (1 - beta * (e0 / (e0 + e1))) * e0 := mul_pos (by linarith) h0
  have : 0 ≤ beta * (e0 / (e0 + e1)) * eij := mul_nonneg ht0 he
  linarith

theorem sampleUpdate_eu (toDouble exp : α → α) (dim : Nat) (lmda eta beta : α) (i j : Nat) (r : α)
    (st : State α) (a : Nat) :
    (sampleUpdate toDouble exp dim lmda eta beta i j r st).eu a =
      if a = i then
        beta * (st.eu i / (st.eu i + st.es j))
            * (|sigmoid toDouble exp (dotProduct (st.U.row i) (st.S.row j) dim) - r| / r)
          + (1 - beta * (st.eu i / (st.eu i + st.es j))) * st.eu i
      else st.eu a := by
  simp [sampleUpdate, Function.update_apply]

theorem sampleUpdate_es (toDouble exp : α → α) (dim : Nat) (lmda eta beta : α) (i j : Nat) (r : α)
    (st : State α) (b : Nat) :
    (sampleUpdate toDouble exp dim lmda eta beta i j r st).es b =
      if b = j then
        beta * (st.es j / (st.eu i + st.es j))
            * (|sigmoid toDouble exp (dotProduct (st.U.row i) (st.S.row j) dim) - r| / r)
          + (1 - beta * (st.es j / (st.eu i + st.es j))) * st.es j
      else st.es b := by
  simp [sampleUpdate, Function.update_apply]

theorem sampleUpdate_pos (toDouble exp : α → α) (dim : Nat) (lmda eta beta : α) (i j : Nat) (r : α)
    (st : State α) (hb0 : 0 ≤ beta) (hb1 : beta ≤ 1) (hr : 0 < r)
    (h : (∀ a, 0 < st.eu a) ∧ (∀ b, 0 < st.es b)) :
    (∀ a, 0 < (sampleUpdate toDouble exp dim lmda eta beta i j r st).eu a) ∧
    (∀ b, 0 < (sampleUpdate toDouble exp dim lmda eta beta i j r st).es b) := by
  have he : 0 ≤ |sigmoid toDouble exp (dotProduct (st.U.row i) (st.S.row j) dim) - r| / r :=
    div_nonneg (abs_nonneg _) (le_of_lt hr)
  constructor
  · intro a
    rw [sampleUpdate_eu]
    split
    · exact (confidence_step beta _ _ _ hb0 hb1 (h.1 i) (h.2 j) he).2.2
    · exact h.1 a
  · intro b
    rw [sampleUpdate_es]
    split
    · have := (confidence_step beta (st.es j) (st.eu i) _ hb0 hb1 (h.2 j) (h.1 i) he).2.2
      rwa [add_comm (st.es j) (st.eu i)] at this
    · exact h.2 b

theorem spValue_pos (removedMatrix : Matrix α) (numUser numService : Nat)
    (hpos : ∀ i j, i < numUser → j < numService → |removedMatrix.get i j| > EPS →
      0 < removedMatrix.get i j)
    (s : Nat) (hs : s < (extractSamples removedMatrix numUser numService).numSample) :
    0 < (extractSamples removedMatrix numUser numService).spValue.getD s 0 := by
  rw [extractSamples_eq] at hs ⊢
  have hs' : s < (observedCells removedMatrix numUser numService).length := hs
  have hmem : (observedCells removedMatrix numUser numService)[s] ∈
      observedCells removedMatrix numUser numService := List.getElem_mem _
  obtain ⟨h1, h2, h3⟩ := mem_observedCells.mp hmem
  show 0 < ((observedCells removedMatrix numUser numService).map
        (fun c => removedMatrix.get c.1 c.2)).getD s 0
  rw [List.getD_eq_getElem _ _ (by simpa using hs')]
  simpa using hpos _ _ h1 h2 h3

theorem sampleStep_pos (toDouble exp : α → α) (rand : Nat → Nat) (removedMatrix : Matrix α)
    (numUser numService dim : Nat) (lmda eta beta : α) (hb0 : 0 ≤ beta) (hb1 : beta ≤ 1)
    (hpos : ∀ i j, i < numUser → j < numService → |removedMatrix.get i j| > EPS →
      0 < removedMatrix.get i j)
    (hn : 0 < (extractSamples removedMatrix numUser numService).numSample) (st : State α)
    (h : (∀ a, 0 < st.eu a) ∧ (∀ b, 0 < st.es b)) :
    (∀ a, 0 < (sampleStep toDouble exp rand (extractSamples removedMatrix numUser numService) dim
        lmda
      eta beta st).eu a) ∧
    (∀ b, 0 < (sampleStep toDouble exp rand (extractSamples removedMatrix numUser numService) dim
        lmda
      eta beta st).es b) := by
  unfold sampleStep
  exact sampleUpdate_pos toDouble exp dim lmda eta beta _ _ _ _ hb0 hb1
    (spValue_pos removedMatrix numUser numService hpos _ (Nat.mod_lt _ hn)) h

theorem sampleLoop_pos (toDouble exp : α → α) (rand : Nat → Nat) (removedMatrix : Matrix α)
    (numUser numService dim : Nat) (lmda eta beta : α) (hb0 : 0 ≤ beta) (hb1 : beta ≤ 1)
    (hpos : ∀ i j, i < numUser → j < numService → |removedMatrix.get i j| > EPS →
      0 < removedMatrix.get i j)
    (s : Nat) (hs : s ≤ (extractSamples removedMatrix numUser numService).numSample)
    (st : State α) (h : (∀ a, 0 < st.eu a) ∧ (∀ b, 0 < st.es b)) :
    (∀ a, 0 < (forLoop s (fun _ st => sampleStep toDouble exp rand
      (extractSamples removedMatrix numUser numService) dim lmda eta beta st) st).eu a) ∧
    (∀ b, 0 < (forLoop s (fun _ st => sampleStep toDouble exp rand
      (extractSamples removedMatrix numUser numService) dim lmda eta beta st) st).es b) := by
  rcases Nat.eq_zero_or_pos (extractSamples removedMatrix numUser numService).numSample
    with h0 | hn
  · have hs0 : s = 0 := by omega
    subst hs0
    exact h
  · exact forLoop_invariant (fun t : State α => (∀ a, 0 < t.eu a) ∧ (∀ b, 0 < t.es b)) s
      (fun _ st => sampleStep toDouble exp rand (extractSamples removedMatrix numUser numService)
          dim
        lmda eta beta st) st h
      (fun _ t ht => sampleStep_pos toDouble exp rand removedMatrix numUser numService dim lmda eta
          beta
        hb0 hb1 hpos hn t ht)

theorem epochState_pos (toDouble exp : α → α) (rand : Nat → Nat) (removedData : Nat → α)
    (numUser numService dim : Nat) (lmda eta beta : α) (Udata Sdata predData : Nat → α)
    (hb0 : 0 ≤ beta) (hb1 : beta ≤ 1)
    (hpos : ∀ i j, i < numUser → j < numService →
      |(vector2Matrix removedData numUser numService).get i j| > EPS →
      0 < (vector2Matrix removedData numUser numService).get i j) (n : Nat) :
    (∀ a, 0 < (epochState toDouble exp rand removedData numUser numService dim lmda eta beta Udata
        Sdata
      predData n).eu a) ∧
    (∀ b, 0 < (epochState toDouble exp rand removedData numUser numService dim lmda eta beta Udata
        Sdata
      predData n).es b) := by
  induction n with
  | zero =>
    constructor <;> intro _ <;> simp [epochState, initState]
  | succ n ih =>
    unfold epochState at ih ⊢
    rw [Function.iterate_succ_apply']
    exact sampleLoop_pos toDouble exp rand (vector2Matrix removedData numUser numService) numUser
      numService dim lmda eta beta hb0 hb1 hpos _ (le_refl _) _ ih

theorem sampleStep_col (toDouble exp : α → α) (rand : Nat → Nat) (sp : Samples α) (dim : Nat)
    (lmda eta beta : α) (st : State α) :
    (sampleStep toDouble exp rand sp dim lmda eta beta st).U.col = st.U.col ∧
    (sampleStep toDouble exp rand sp dim lmda eta beta st).S.col = st.S.col := by
  unfold sampleStep sampleUpdate
  obtain ⟨h1, h2, -, -⟩ := gradientLoop_frame dim lmda eta
    (sp.spIndex.getD (rand st.draws % sp.numSample) (0, 0)).1
    (sp.spIndex.getD (rand st.draws % sp.numSample) (0, 0)).2
    (st.eu (sp.spIndex.getD (rand st.draws % sp.numSample) (0, 0)).1 /
      (st.eu (sp.spIndex.getD (rand st.draws % sp.numSample) (0, 0)).1 +
        st.es (sp.spIndex.getD (rand st.draws % sp.numSample) (0, 0)).2))
    (st.es (sp.spIndex.getD (rand st.draws % sp.numSample) (0, 0)).2 /
      (st.eu (sp.spIndex.getD (rand st.draws % sp.numSample) (0, 0)).1 +
        st.es (sp.spIndex.getD (rand st.draws % sp.numSample) (0, 0)).2))
    (sigmoid toDouble exp (dotProduct
      (st.U.row (sp.spIndex.getD (rand st.draws % sp.numSample) (0, 0)).1)
      (st.S.row (sp.spIndex.getD (rand st.draws % sp.numSample) (0, 0)).2) dim))
    (sp.spValue.getD (rand st.draws % sp.numSample) 0)
    (grad_sigmoid exp (dotProduct
      (st.U.row (sp.spIndex.getD (rand st.draws % sp.numSample) (0, 0)).1)
      (st.S.row (sp.spIndex.getD (rand st.draws % sp.numSample) (0, 0)).2) dim))
    (sqr (sp.spValue.getD (rand st.draws % sp.numSample) 0)) st.U st.S
  exact ⟨h1, h2⟩

theorem sampleLoop_col (toDouble exp : α → α) (rand : Nat → Nat) (sp : Samples α) (dim : Nat)
    (lmda eta beta : α) (s : Nat) (st : State α) :
    (forLoop s (fun _ st => sampleStep toDouble exp rand sp dim lmda eta beta st) st).U.col =
        st.U.col ∧
    (forLoop s (fun _ st => sampleStep toDouble exp rand sp dim lmda eta beta st) st).S.col
      = st.S.col :=
  forLoop_invariant (fun t : State α => t.U.col = st.U.col ∧ t.S.col = st.S.col) s
    (fun _ st => sampleStep toDouble exp rand sp dim lmda eta beta st) st ⟨rfl, rfl⟩
    (fun _ t h =>
      ⟨(sampleStep_col toDouble exp rand sp dim lmda eta beta t).1.trans h.1,
        (sampleStep_col toDouble exp rand sp dim lmda eta beta t).2.trans h.2⟩)

theorem epochState_col (toDouble exp : α → α) (rand : Nat → Nat) (removedData : Nat → α)
    (numUser numService dim : Nat) (lmda eta beta : α) (Udata Sdata predData : Nat → α)
    (n : Nat) :
    (epochState toDouble exp rand removedData numUser numService dim lmda eta beta Udata Sdata
        predData
      n).U.col = dim ∧
    (epochState toDouble exp rand removedData numUser numService dim lmda eta beta Udata Sdata
        predData
      n).S.col = dim := by
  induction n with
  | zero => exact ⟨rfl, rfl⟩
  | succ n ih =>
    unfold epochState at ih ⊢
    rw [Function.iterate_succ_apply']
    simp only [epoch]
    exact ⟨(sampleLoop_col _ _ _ _ _ _ _ _ _ _).1.trans ih.1,
      (sampleLoop_col _ _ _ _ _ _ _ _ _ _).2.trans ih.2⟩

theorem forLoop_congr {σ : Type} (n : Nat) (body body' : Nat → σ → σ) (s : σ)
    (h : ∀ i, i < n → ∀ t, body i t = body' i t) : forLoop n body s = forLoop n body' s := by
  induction n with
  | zero => rfl
  | succ n ih =>
    rw [forLoop_succ, forLoop_succ, ih (fun i hi t => h i (Nat.lt_succ_of_lt hi) t),
      h n (Nat.lt_succ_self n)]

theorem loss_congr_pred (U S removedMatrix P P' : Matrix α) (lmda : α)
    (numUser numService dim : Nat)
    (h : ∀ i j, i < numUser → j < numService → |removedMatrix.get i j| > EPS →
      P.get i j = P'.get i j) :
    loss U S removedMatrix P lmda numUser numService dim
      = loss U S removedMatrix P' lmda numUser numService dim := by
  unfold loss
  simp only
  congr 1
  apply forLoop_congr
  intro i hi t
  apply forLoop_congr
  intro j hj t'
  by_cases hobs : |removedMatrix.get i j| > EPS
  · rw [if_pos hobs, if_pos hobs, h i j hi hj hobs]
  · rw [if_neg hobs, if_neg hobs]

theorem loss_raw_sum (U S removedMatrix predMatrix : Matrix α) (lmda : α)
    (numUser numService dim : Nat) :
    loss U S removedMatrix predMatrix lmda numUser numService dim =
      (∑ i in Finset.range numUser, ∑ j in Finset.range numService,
          if |removedMatrix.get i j| > EPS then
            0.5 * (((removedMatrix.get i j - predMatrix.get i j) / removedMatrix.get i j)
              * ((removedMatrix.get i j - predMatrix.get i j) / removedMatrix.get i j))
          else 0)
      + ∑ k in Finset.range dim,
          ((∑ i in Finset.range numUser, 0.5 * lmda * (U.get i k * U.get i k))
            + ∑ j in Finset.range numService, 0.5 * lmda * (S.get j k * S.get j k)) := by
  unfold loss
  simp only [ite_add_acc, forLoop_add, add_assoc, zero_add, sqr]

theorem half_sq_eq_zero_iff (x : α) : (0.5 : α) * (x * x) = 0 ↔ x = 0 := by
  constructor
  · intro h
    have h5 : (0.5 : α) ≠ 0 := by norm_num
    rcases mul_eq_zero.mp h with h1 | h1
    · exact absurd h1 h5
    · exact mul_self_eq_zero.mp h1
  · rintro rfl; simp

theorem half_lmda_sq_eq_zero_iff (lmda x : α) :
    (0.5 : α) * lmda * (x * x) = 0 ↔ lmda = 0 ∨ x = 0 := by
  have h5 : (0.5 : α) ≠ 0 := by norm_num
  rw [mul_eq_zero, mul_eq_zero, mul_self_eq_zero]
  constructor
  · rintro ((h | h) | h)
    · exact absurd h h5
    · exact Or.inl h
    · exact Or.inr h
  · rintro (h | h)
    · exact Or.inl (Or.inr h)
    · exact Or.inr h

/-! ## Further specified properties -/

/-- C11. For positive `eu[i]` and `es[j]`, the weights of the per-sample step,
`wi = eu[i] / (eu[i] + es[j])` and `wj = es[j] / (eu[i] + es[j])`, satisfy `wi + wj = 1`,
`0 < wi < 1` and `0 < wj < 1`; they are the weights with which the step updates `eu[i]` and
`es[j]`. -/
theorem sampleUpdate_weights_normalized (toDouble exp : α → α) (dim : Nat) (lmda eta beta : α)
    (i j : Nat) (r : α) (st : State α) (hu : 0 < st.eu i) (hs : 0 < st.es j) :
    st.eu i / (st.eu i + st.es j) + st.es j / (st.eu i + st.es j) = 1 ∧
    0 < st.eu i / (st.eu i + st.es j) ∧ st.eu i / (st.eu i + st.es j) < 1 ∧
    0 < st.es j / (st.eu i + st.es j) ∧ st.es j / (st.eu i + st.es j) < 1 ∧
    (sampleUpdate toDouble exp dim lmda eta beta i j r st).eu i =
      beta * (st.eu i / (st.eu i + st.es j))
          * (|sigmoid toDouble exp (dotProduct (st.U.row i) (st.S.row j) dim) - r| / r)
        + (1 - beta * (st.eu i / (st.eu i + st.es j))) * st.eu i ∧
    (sampleUpdate toDouble exp dim lmda eta beta i j r st).es j =
      beta * (st.es j / (st.eu i + st.es j))
          * (|sigmoid toDouble exp (dotProduct (st.U.row i) (st.S.row j) dim) - r| / r)
        + (1 - beta * (st.es j / (st.eu i + st.es j))) * st.es j := by
  have hsum : 0 < st.eu i + st.es j := add_pos hu hs
  refine ⟨?_, div_pos hu hsum, ?_, div_pos hs hsum, ?_, ?_, ?_⟩
  · rw [← add_div, div_self (ne_of_gt hsum)]
  · rw [div_lt_one hsum]; linarith
  · rw [div_lt_one hsum]; linarith
  · simp [sampleUpdate]
  · simp [sampleUpdate]

/-- The weights of C11 for `eu[0] = 1`, `es[0] = 3`: `1 / 4 + 3 / 4 = 1` and `1 / 4 < 1`. -/
theorem sampleUpdate_weights_normalized_witness :
    (0 : ℝ) < 1 ∧ (0 : ℝ) < 3 ∧ (1 : ℝ) / (1 + 3) + 3 / (1 + 3) = 1 ∧ (1 : ℝ) / (1 + 3) < 1 :=
  ⟨by norm_num, by norm_num,
    (sampleUpdate_weights_normalized id Real.exp 1 0 1 0 0 0 1
      { U := vector2Matrix (fun _ => 0) 1 1, S := vector2Matrix (fun _ => 1) 1 1,
        predMatrix := vector2Matrix (fun _ => 0) 1 1, eu := fun _ => 1, es := fun _ => 3,
        lossValue := .num 0, iter := 0, draws := 0 } (by norm_num) (by norm_num)).1,
    (sampleUpdate_weights_normalized id Real.exp 1 0 1 0 0 0 1
      { U := vector2Matrix (fun _ => 0) 1 1, S := vector2Matrix (fun _ => 1) 1 1,
        predMatrix := vector2Matrix (fun _ => 0) 1 1, eu := fun _ => 1, es := fun _ => 3,
        lossValue := .num 0, iter := 0, draws := 0 } (by norm_num) (by norm_num)).2.2.1⟩

/-- C12. The extracted sample list is in row-major order: its coordinate pairs are
strictly increasing in the lexicographic order (user first, then service), so it has no
duplicate coordinates; and it is a function of the in-bounds cells of the observed matrix
alone: two matrices that agree on every cell `(i, j)`, `i < numUser`, `j < numService`, give
the same samples. -/
theorem extractSamples_row_major (removedMatrix : Matrix α) (numUser numService : Nat) :
    (extractSamples removedMatrix numUser numService).spIndex.Pairwise
      (fun c d => c.1 < d.1 ∨ (c.1 = d.1 ∧ c.2 < d.2)) ∧
    (extractSamples removedMatrix numUser numService).spIndex.Nodup ∧
    (∀ R' : Matrix α,
      (∀ i j, i < numUser → j < numService → R'.get i j = removedMatrix.get i j) →
      extractSamples R' numUser numService = extractSamples removedMatrix numUser numService) := by
  refine ⟨?_, ?_, ?_⟩
  · rw [extractSamples_eq]
    exact (pairwise_cells numUser numService).filter _
  · rw [extractSamples_eq]
    exact nodup_observedCells removedMatrix numUser numService
  · intro R' h
    rw [extractSamples_eq, extractSamples_eq, observedCells_congr removedMatrix R' _ _ h]
    congr 1
    apply List.map_congr_left
    intro c hc
    obtain ⟨h1, h2, -⟩ := mem_observedCells.mp hc
    exact h c.1 c.2 h1 h2

/-- C13. The parameter `maxIter` does not influence `AMF`: two calls that differ only in
`maxIter` (same inputs, same draws, same fuel) give the same result, so whenever both return,
the epoch counter, `U`, `S` and the prediction matrix are identical. -/
theorem AMF_maxIter_irrelevant (toDouble exp : α → α) (rand : Nat → Nat) (fuel : Nat)
    (removedData : Nat → α) (numUser numService dim : Nat) (lmda : α)
    (maxIter1 maxIter2 : Nat) (convergeThreshold eta beta : α) (debugMode : Bool)
    (Udata Sdata predData : Nat → α) :
    AMF toDouble exp rand fuel removedData numUser numService dim lmda maxIter1 convergeThreshold
        eta
        beta debugMode Udata Sdata predData =
      AMF toDouble exp rand fuel removedData numUser numService dim lmda maxIter2 convergeThreshold
          eta
        beta debugMode Udata Sdata predData ∧
    (∀ res1 res2 : State α,
      AMF toDouble exp rand fuel removedData numUser numService dim lmda maxIter1 convergeThreshold
          eta
        beta debugMode Udata Sdata predData = some res1 →
      AMF toDouble exp rand fuel removedData numUser numService dim lmda maxIter2 convergeThreshold
          eta
        beta debugMode Udata Sdata predData = some res2 →
      res1.iter = res2.iter ∧ res1.U = res2.U ∧ res1.S = res2.S ∧
        res1.predMatrix = res2.predMatrix) := by
  refine ⟨rfl, ?_⟩
  intro res1 res2 h1 h2
  have h : some res1 = some res2 := h1.symm.trans h2
  cases h
  exact ⟨rfl, rfl, rfl, rfl⟩

/-- C14. One per-sample step for the sample `(i, j, r)` changes only row `i` of `U`, row
`j` of `S`, `eu[i]` and `es[j]`: every cell of a row `a ≠ i` of `U` and of a row `b ≠ j` of `S`,
every `eu[a]` with `a ≠ i` and every `es[b]` with `b ≠ j` keeps its value, as do the strides,
the prediction matrix, the loss value, the epoch counter and the draw counter.  The rows are
those of a matrix whose stride is at least `dim`, and every state `AMF` reaches (after `n`
epochs and `s` further sample steps) has strides equal to `dim`.  The observed matrix and the
sample list are inputs of the step, not part of the state it returns. -/
theorem sampleUpdate_frame (toDouble exp : α → α) (dim : Nat) (lmda eta beta : α) (i j : Nat)
    (r : α) :
    (∀ st : State α, dim ≤ st.U.col → dim ≤ st.S.col →
      (∀ a k, a ≠ i → k < st.U.col →
        (sampleUpdate toDouble exp dim lmda eta beta i j r st).U.get a k = st.U.get a k) ∧
      (∀ b k, b ≠ j → k < st.S.col →
        (sampleUpdate toDouble exp dim lmda eta beta i j r st).S.get b k = st.S.get b k) ∧
      (∀ a, a ≠ i → (sampleUpdate toDouble exp dim lmda eta beta i j r st).eu a = st.eu a) ∧
      (∀ b, b ≠ j → (sampleUpdate toDouble exp dim lmda eta beta i j r st).es b = st.es b) ∧
      (sampleUpdate toDouble exp dim lmda eta beta i j r st).U.col = st.U.col ∧
      (sampleUpdate toDouble exp dim lmda eta beta i j r st).S.col = st.S.col ∧
      (sampleUpdate toDouble exp dim lmda eta beta i j r st).predMatrix = st.predMatrix ∧
      (sampleUpdate toDouble exp dim lmda eta beta i j r st).lossValue = st.lossValue ∧
      (sampleUpdate toDouble exp dim lmda eta beta i j r st).iter = st.iter ∧
      (sampleUpdate toDouble exp dim lmda eta beta i j r st).draws = st.draws) ∧
    (∀ (rand : Nat → Nat) (removedData : Nat → α) (numUser numService : Nat)
      (Udata Sdata predData : Nat → α) (n s : Nat),
      (forLoop s (fun _ st => sampleStep toDouble exp rand
          (extractSamples (vector2Matrix removedData numUser numService) numUser numService)
          dim lmda eta beta st)
        (epochState toDouble exp rand removedData numUser numService dim lmda eta beta Udata Sdata
          predData n)).U.col = dim ∧
      (forLoop s (fun _ st => sampleStep toDouble exp rand
          (extractSamples (vector2Matrix removedData numUser numService) numUser numService)
          dim lmda eta beta st)
        (epochState toDouble exp rand removedData numUser numService dim lmda eta beta Udata Sdata
          predData n)).S.col = dim) := by
  constructor
  · intro st hU hS
    obtain ⟨h1, h2⟩ := gradientLoop_other_rows dim lmda eta i j
      (st.eu i / (st.eu i + st.es j)) (st.es j / (st.eu i + st.es j))
      (sigmoid toDouble exp (dotProduct (st.U.row i) (st.S.row j) dim)) r
      (grad_sigmoid exp (dotProduct (st.U.row i) (st.S.row j) dim)) (sqr r) st.U st.S hU hS
    obtain ⟨hc1, hc2, -, -⟩ := gradientLoop_frame dim lmda eta i j
      (st.eu i / (st.eu i + st.es j)) (st.es j / (st.eu i + st.es j))
      (sigmoid toDouble exp (dotProduct (st.U.row i) (st.S.row j) dim)) r
      (grad_sigmoid exp (dotProduct (st.U.row i) (st.S.row j) dim)) (sqr r) st.U st.S
    refine ⟨h1, h2, ?_, ?_, hc1, hc2, rfl, rfl, rfl, rfl⟩
    · intro a ha
      simp [sampleUpdate, Function.update_noteq ha]
    · intro b hb
      simp [sampleUpdate, Function.update_noteq hb]
  · intro rand removedData numUser numService Udata Sdata predData n s
    obtain ⟨h1, h2⟩ := epochState_col toDouble exp rand removedData numUser numService dim lmda eta
        beta
      Udata Sdata predData n
    exact ⟨(sampleLoop_col _ _ _ _ _ _ _ _ _ _).1.trans h1,
      (sampleLoop_col _ _ _ _ _ _ _ _ _ _).2.trans h2⟩

/-- The frame of C14 on a `2 × 1` matrix `U = [[0], [5]]` and the sample `(0, 0, 1)`: row
`1` keeps its value `5`. -/
theorem sampleUpdate_frame_witness :
    (1 : Nat) ≤ 1 ∧
    (sampleUpdate id Real.exp 1 0 1 0 0 0 1
      { U := vector2Matrix (fun n => if n = 1 then 5 else 0) 2 1,
        S := vector2Matrix (fun _ => 1) 1 1,
        predMatrix := vector2Matrix (fun _ => 0) 2 1, eu := fun _ => 1, es := fun _ => 1,
        lossValue := .num 0, iter := 0, draws := 0 }).U.get 1 0 = 5 :=
  ⟨le_refl 1,
    (((sampleUpdate_frame id Real.exp 1 0 1 0 0 0 1).1
      { U := vector2Matrix (fun n => if n = 1 then 5 else 0) 2 1,
        S := vector2Matrix (fun _ => 1) 1 1,
        predMatrix := vector2Matrix (fun _ => 0) 2 1, eu := fun _ => 1, es := fun _ => 1,
        lossValue := .num 0, iter := 0, draws := 0 } (le_refl 1) (le_refl 1)).1 1 0
        (by decide) (by decide)).trans (by norm_num [Matrix.get, vector2Matrix])⟩

/-- C15. For `0 <= beta <= 1`: if `eu[i] > 0`, `es[j] > 0` and `r > 0`, the per-sample
step leaves the new `eu[i]` between `min(eij, eu0[i])` and `max(eij, eu0[i])` and strictly
positive, and likewise the new `es[j]` between `min(eij, es0[j])` and `max(eij, es0[j])` and
strictly positive, where `eij = |p - r| / r`.  Hence, when every observed value is strictly
positive, after any number `n` of epochs and `s <= numSample` further sample steps from the
initial confidences (all `1`), every `eu[a]` and `es[b]` is strictly positive and
`eu[a] + es[b]` is not zero. -/
theorem confidence_bounded_positive (toDouble exp : α → α) (beta : α) (hb0 : 0 ≤ beta)
    (hb1 : beta ≤ 1) :
    (∀ (dim : Nat) (lmda eta : α) (i j : Nat) (r : α) (st : State α),
      0 < st.eu i → 0 < st.es j → 0 < r →
      min (|sigmoid toDouble exp (dotProduct (st.U.row i) (st.S.row j) dim) - r| / r) (st.eu i)
        ≤ (sampleUpdate toDouble exp dim lmda eta beta i j r st).eu i ∧
      (sampleUpdate toDouble exp dim lmda eta beta i j r st).eu i
        ≤ max (|sigmoid toDouble exp (dotProduct (st.U.row i) (st.S.row j) dim) - r| / r) (st.eu i)
            ∧
      0 < (sampleUpdate toDouble exp dim lmda eta beta i j r st).eu i ∧
      min (|sigmoid toDouble exp (dotProduct (st.U.row i) (st.S.row j) dim) - r| / r) (st.es j)
        ≤ (sampleUpdate toDouble exp dim lmda eta beta i j r st).es j ∧
      (sampleUpdate toDouble exp dim lmda eta beta i j r st).es j
        ≤ max (|sigmoid toDouble exp (dotProduct (st.U.row i) (st.S.row j) dim) - r| / r) (st.es j)
            ∧
      0 < (sampleUpdate toDouble exp dim lmda eta beta i j r st).es j) ∧
    (∀ (rand : Nat → Nat) (removedData : Nat → α) (numUser numService dim : Nat)
      (lmda eta : α) (Udata Sdata predData : Nat → α),
      (∀ i j, i < numUser → j < numService →
        |(vector2Matrix removedData numUser numService).get i j| > EPS →
        0 < (vector2Matrix removedData numUser numService).get i j) →
      ∀ n s, s ≤ (extractSamples (vector2Matrix removedData numUser numService) numUser
          numService).numSample →
      ∀ a b,
        0 < (forLoop s (fun _ st => sampleStep toDouble exp rand
            (extractSamples (vector2Matrix removedData numUser numService) numUser numService)
            dim lmda eta beta st)
          (epochState toDouble exp rand removedData numUser numService dim lmda eta beta Udata Sdata
            predData n)).eu a ∧
        0 < (forLoop s (fun _ st => sampleStep toDouble exp rand
            (extractSamples (vector2Matrix removedData numUser numService) numUser numService)
            dim lmda eta beta st)
          (epochState toDouble exp rand removedData numUser numService dim lmda eta beta Udata Sdata
            predData n)).es b ∧
        (forLoop s (fun _ st => sampleStep toDouble exp rand
            (extractSamples (vector2Matrix removedData numUser numService) numUser numService)
            dim lmda eta beta st)
          (epochState toDouble exp rand removedData numUser numService dim lmda eta beta Udata Sdata
            predData n)).eu a +
        (forLoop s (fun _ st => sampleStep toDouble exp rand
            (extractSamples (vector2Matrix removedData numUser numService) numUser numService)
            dim lmda eta beta st)
          (epochState toDouble exp rand removedData numUser numService dim lmda eta beta Udata Sdata
            predData n)).es b ≠ 0) := by
  constructor
  · intro dim lmda eta i j r st hu hs hr
    have he : 0 ≤ |sigmoid toDouble exp (dotProduct (st.U.row i) (st.S.row j) dim) - r| / r :=
      div_nonneg (abs_nonneg _) (le_of_lt hr)
    obtain ⟨h1, h2, h3⟩ := confidence_step beta (st.eu i) (st.es j) _ hb0 hb1 hu hs he
    obtain ⟨h4, h5, h6⟩ := confidence_step beta (st.es j) (st.eu i) _ hb0 hb1 hs hu he
    rw [add_comm (st.es j) (st.eu i)] at h4 h5 h6
    rw [sampleUpdate_eu, sampleUpdate_es, if_pos rfl, if_pos rfl]
    exact ⟨h1, h2, h3, h4, h5, h6⟩
  · intro rand removedData numUser numService dim lmda eta Udata Sdata predData hpos n s hs a b
    obtain ⟨h1, h2⟩ := sampleLoop_pos toDouble exp rand (vector2Matrix removedData numUser
        numService)
      numUser numService dim lmda eta beta hb0 hb1 hpos s hs _
      (epochState_pos toDouble exp rand removedData numUser numService dim lmda eta beta Udata Sdata
        predData hb0 hb1 hpos n)
    exact ⟨h1 a, h2 b, ne_of_gt (add_pos (h1 a) (h2 b))⟩

/-- The bound of C15 for `beta = 1 / 2` on the sample `(0, 0, 1)` with unit
confidences: the new `eu[0]` is strictly positive. -/
theorem confidence_bounded_positive_witness :
    (0 : ℝ) ≤ 1 / 2 ∧ (1 / 2 : ℝ) ≤ 1 ∧
    0 < (sampleUpdate id Real.exp 1 0 1 (1 / 2) 0 0 1
      { U := vector2Matrix (fun _ => 0) 1 1, S := vector2Matrix (fun _ => 1) 1 1,
        predMatrix := vector2Matrix (fun _ => 0) 1 1, eu := fun _ => 1, es := fun _ => 1,
        lossValue := .num 0, iter := 0, draws := 0 }).eu 0 :=
  ⟨by norm_num, by norm_num,
    ((confidence_bounded_positive id Real.exp (1 / 2) (by norm_num) (by norm_num)).1 1 0 1 0 0 1
      { U := vector2Matrix (fun _ => 0) 1 1, S := vector2Matrix (fun _ => 1) 1 1,
        predMatrix := vector2Matrix (fun _ => 0) 1 1, eu := fun _ => 1, es := fun _ => 1,
        lossValue := .num 0, iter := 0, draws := 0 }
      (by norm_num) (by norm_num) (by norm_num)).2.2.1⟩

/-- C16. The per-epoch loss does not depend on stale prediction-matrix contents: for the
`numUser × numService` prediction buffer, the loss computed after the observed-only refresh
equals the loss computed after the full refresh, equals the loss of any prediction matrix that
holds `sigmoid(dotProduct(U[i], S[j]))` at every observed cell, and is the same for every
initial buffer; and the loss value an epoch of the training loop stores is the one the full
refresh would give. -/
theorem loss_observed_only_refresh (toDouble exp : α → α) (U S removedMatrix : Matrix α) (lmda : α)
    (numUser numService dim : Nat) (predData : Nat → α) :
    loss U S removedMatrix
        (getPredMatrix toDouble exp false removedMatrix U S numUser numService dim
          (vector2Matrix predData numUser numService)) lmda numUser numService dim
      = loss U S removedMatrix
        (getPredMatrix toDouble exp true removedMatrix U S numUser numService dim
          (vector2Matrix predData numUser numService)) lmda numUser numService dim ∧
    (∀ P : Matrix α,
      (∀ i j, i < numUser → j < numService → |removedMatrix.get i j| > EPS →
        P.get i j = sigmoid toDouble exp (dotProduct (U.row i) (S.row j) dim)) →
      loss U S removedMatrix
          (getPredMatrix toDouble exp false removedMatrix U S numUser numService dim
            (vector2Matrix predData numUser numService)) lmda numUser numService dim
        = loss U S removedMatrix P lmda numUser numService dim) ∧
    (∀ predData' : Nat → α,
      loss U S removedMatrix
          (getPredMatrix toDouble exp false removedMatrix U S numUser numService dim
            (vector2Matrix predData' numUser numService)) lmda numUser numService dim
        = loss U S removedMatrix
          (getPredMatrix toDouble exp false removedMatrix U S numUser numService dim
            (vector2Matrix predData numUser numService)) lmda numUser numService dim) ∧
    (∀ (rand : Nat → Nat) (sp : Samples α) (eta beta : α) (st : State α),
      st.predMatrix.col = numService →
      (epoch toDouble exp rand removedMatrix sp numUser numService dim lmda eta beta
          st).lossValue
        = divByCount
          (loss
            (epoch toDouble exp rand removedMatrix sp numUser numService dim lmda eta beta st).U
            (epoch toDouble exp rand removedMatrix sp numUser numService dim lmda eta beta st).S
            removedMatrix
            (getPredMatrix toDouble exp true removedMatrix
              (epoch toDouble exp rand removedMatrix sp numUser numService dim lmda eta beta
                st).U
              (epoch toDouble exp rand removedMatrix sp numUser numService dim lmda eta beta
                st).S
              numUser numService dim st.predMatrix) lmda numUser numService dim)
          sp.numSample) := by
  have hgen : ∀ (flag : Bool) (U S P : Matrix α), P.col = numService →
      ∀ i j, i < numUser → j < numService → |removedMatrix.get i j| > EPS →
      (getPredMatrix toDouble exp flag removedMatrix U S numUser numService dim P).get i j
        = sigmoid toDouble exp (dotProduct (U.row i) (S.row j) dim) := by
    intro flag U S P hP i j hi hj h
    rw [(getPredMatrix_spec toDouble exp flag removedMatrix U S numUser numService dim P
      (le_of_eq hP.symm)).2 i j (by rw [hP]; exact hj), if_pos ⟨hi, hj, Or.inr h⟩]
  have hobs : ∀ (flag : Bool) (pd : Nat → α) i j, i < numUser → j < numService →
      |removedMatrix.get i j| > EPS →
      (getPredMatrix toDouble exp flag removedMatrix U S numUser numService dim
        (vector2Matrix pd numUser numService)).get i j
        = sigmoid toDouble exp (dotProduct (U.row i) (S.row j) dim) := by
    intro flag pd i j hi hj h
    rw [(getPredMatrix_spec toDouble exp flag removedMatrix U S numUser numService dim
      (vector2Matrix pd numUser numService) (le_refl _)).2 i j hj,
      if_pos ⟨hi, hj, Or.inr h⟩]
  refine ⟨?_, ?_, ?_, ?_⟩
  · apply loss_congr_pred
    intro i j hi hj h
    rw [hobs false predData i j hi hj h, hobs true predData i j hi hj h]
  · intro P hP
    apply loss_congr_pred
    intro i j hi hj h
    rw [hobs false predData i j hi hj h, hP i j hi hj h]
  · intro predData'
    apply loss_congr_pred
    intro i j hi hj h
    rw [hobs false predData' i j hi hj h, hobs false predData i j hi hj h]
  · intro rand sp eta beta st hcol
    have hp := (sampleLoop_frame toDouble exp rand sp dim lmda eta beta sp.numSample st).2
    simp only [epoch]
    congr 1
    apply loss_congr_pred
    intro i j hi hj h
    rw [hgen false _ _ _ (by rw [hp]; exact hcol) i j hi hj h,
      hgen true _ _ _ hcol i j hi hj h]

/-- C17. Sample drawing is index-safe.  When `numSample = 0` the sample loop runs zero
times and leaves the state (also the draw counter) unchanged, so no modulo is evaluated.  When
`numSample > 0`, for every draw `x` the index `spId = x % numSample` satisfies
`spId < numSample`, `spId` is within `spIndex` and `spValue`, and the looked-up `(i, j)` satisfy
`i < numUser` and `j < numService`.  Each sample step applies the update to exactly these
looked-up `i`, `j` and value. -/
theorem sample_draw_in_bounds (removedMatrix : Matrix α) (numUser numService : Nat) :
    ((extractSamples removedMatrix numUser numService).numSample = 0 →
      ∀ (toDouble exp : α → α) (rand : Nat → Nat) (dim : Nat) (lmda eta beta : α) (st : State α),
        forLoop (extractSamples removedMatrix numUser numService).numSample
          (fun _ st => sampleStep toDouble exp rand (extractSamples removedMatrix numUser
              numService)
            dim lmda eta beta st) st = st) ∧
    (0 < (extractSamples removedMatrix numUser numService).numSample →
      ∀ x : Nat,
        x % (extractSamples removedMatrix numUser numService).numSample
          < (extractSamples removedMatrix numUser numService).numSample ∧
        x % (extractSamples removedMatrix numUser numService).numSample
          < (extractSamples removedMatrix numUser numService).spIndex.length ∧
        x % (extractSamples removedMatrix numUser numService).numSample
          < (extractSamples removedMatrix numUser numService).spValue.length ∧
        ((extractSamples removedMatrix numUser numService).spIndex.getD
          (x % (extractSamples removedMatrix numUser numService).numSample) (0, 0)).1
            < numUser ∧
        ((extractSamples removedMatrix numUser numService).spIndex.getD
          (x % (extractSamples removedMatrix numUser numService).numSample) (0, 0)).2
            < numService) ∧
    (∀ (toDouble exp : α → α) (rand : Nat → Nat) (dim : Nat) (lmda eta beta : α) (st : State α),
      sampleStep toDouble exp rand (extractSamples removedMatrix numUser numService) dim lmda eta
          beta st
        = sampleUpdate toDouble exp dim lmda eta beta
          ((extractSamples removedMatrix numUser numService).spIndex.getD
            (rand st.draws % (extractSamples removedMatrix numUser numService).numSample)
            (0, 0)).1
          ((extractSamples removedMatrix numUser numService).spIndex.getD
            (rand st.draws % (extractSamples removedMatrix numUser numService).numSample)
            (0, 0)).2
          ((extractSamples removedMatrix numUser numService).spValue.getD
            (rand st.draws % (extractSamples removedMatrix numUser numService).numSample) 0)
          { st with draws := st.draws + 1 }) := by
  refine ⟨?_, ?_, ?_⟩
  · intro h0 toDouble exp rand dim lmda eta beta st
    rw [h0]
    rfl
  · intro hn x
    have hlt := Nat.mod_lt x hn
    rw [extractSamples_eq] at hlt ⊢
    have hs : x % (observedCells removedMatrix numUser numService).length
        < (observedCells removedMatrix numUser numService).length := hlt
    have hmem : (observedCells removedMatrix numUser numService)[x %
        (observedCells removedMatrix numUser numService).length] ∈
        observedCells removedMatrix numUser numService := List.getElem_mem _
    obtain ⟨h1, h2, -⟩ := mem_observedCells.mp hmem
    simp only [List.length_map, List.getD_eq_getElem _ _ hs]
    exact ⟨hs, hs, hs, h1, h2⟩
  · intro toDouble exp rand dim lmda eta beta st
    rfl

/-- C18. When the prediction equals the observation
(`sigmoid(dotProduct(U[i], S[j])) = r`), the per-sample step is pure L2 shrinkage: for every
`k < dim` the new `U[i][k]` is `(1 - eta * lambda) * U0[i][k]` and the new `S[j][k]` is
`(1 - eta * lambda) * S0[j][k]`, whatever the weights; with `lambda = 0` the step leaves `U` and
`S` unchanged. -/
theorem sampleUpdate_shrinkage (toDouble exp : α → α) (dim : Nat) (lmda eta beta : α) (i j : Nat)
    (r : α) (st : State α)
    (hp : sigmoid toDouble exp (dotProduct (st.U.row i) (st.S.row j) dim) = r) :
    (∀ k, k < dim →
      (sampleUpdate toDouble exp dim lmda eta beta i j r st).U.get i k
        = (1 - eta * lmda) * st.U.get i k ∧
      (sampleUpdate toDouble exp dim lmda eta beta i j r st).S.get j k
        = (1 - eta * lmda) * st.S.get j k) ∧
    (lmda = 0 →
      (sampleUpdate toDouble exp dim lmda eta beta i j r st).U = st.U ∧
      (sampleUpdate toDouble exp dim lmda eta beta i j r st).S = st.S) := by
  constructor
  · intro k hk
    obtain ⟨-, -, hU, hS⟩ := gradientLoop_spec dim lmda eta i j
      (st.eu i / (st.eu i + st.es j)) (st.es j / (st.eu i + st.es j))
      (sigmoid toDouble exp (dotProduct (st.U.row i) (st.S.row j) dim)) r
      (grad_sigmoid exp (dotProduct (st.U.row i) (st.S.row j) dim)) (sqr r) st.U st.S
    constructor
    · simp only [sampleUpdate]
      rw [hU k, if_pos hk, hp]
      ring
    · simp only [sampleUpdate]
      rw [hS k, if_pos hk, hp]
      ring
  · intro hl
    subst hl
    subst hp
    simp only [sampleUpdate]
    rw [gradientLoop_fixed]
    exact ⟨rfl, rfl⟩

/-- The shrinkage of C18 with `U[0] = [0]`, `S[0] = [1]`, `r = sigmoid(0) = 1 / 2`,
`lambda = 1`, `eta = 1 / 2`: the new `S[0][0]` is `1 / 2`. -/
theorem sampleUpdate_shrinkage_witness :
    sigmoid id Real.exp (dotProduct
      (Matrix.row (vector2Matrix (fun _ => (0 : ℝ)) 1 1) 0)
      (Matrix.row (vector2Matrix (fun _ => (1 : ℝ)) 1 1) 0) 1) = 1 / 2 ∧
    (sampleUpdate id Real.exp 1 1 (1 / 2) 0 0 0 (1 / 2)
      { U := vector2Matrix (fun _ => 0) 1 1, S := vector2Matrix (fun _ => 1) 1 1,
        predMatrix := vector2Matrix (fun _ => 0) 1 1, eu := fun _ => 1, es := fun _ => 1,
        lossValue := .num 0, iter := 0, draws := 0 }).S.get 0 0 = 1 / 2 :=
  ⟨by norm_num [sigmoid, dotProduct, forLoop, Matrix.row, Matrix.get, vector2Matrix,
      List.range_succ],
    ((sampleUpdate_shrinkage id Real.exp 1 1 (1 / 2) 0 0 0 (1 / 2)
      { U := vector2Matrix (fun _ => 0) 1 1, S := vector2Matrix (fun _ => 1) 1 1,
        predMatrix := vector2Matrix (fun _ => 0) 1 1, eu := fun _ => 1, es := fun _ => 1,
        lossValue := .num 0, iter := 0, draws := 0 }
      (by norm_num [sigmoid, dotProduct, forLoop, Matrix.row, Matrix.get, vector2Matrix,
        List.range_succ])).1 0 (by decide)).2.trans
      (by norm_num [Matrix.get, vector2Matrix])⟩

/-- C19. For `lambda >= 0` the loss is non-negative, and it is zero exactly when
`P[i][j] = R[i][j]` at every observed cell and either `lambda = 0` or every entry of `U` and of
`S` (rows below `numUser`, `numService`, columns below `dim`) is zero. -/
theorem loss_nonneg_zero_iff (U S removedMatrix predMatrix : Matrix α) (lmda : α)
    (numUser numService dim : Nat) (hl : 0 ≤ lmda) :
    0 ≤ loss U S removedMatrix predMatrix lmda numUser numService dim ∧
    (loss U S removedMatrix predMatrix lmda numUser numService dim = 0 ↔
      (∀ i j, i < numUser → j < numService → |removedMatrix.get i j| > EPS →
        predMatrix.get i j = removedMatrix.get i j) ∧
      (lmda = 0 ∨
        ((∀ i k, i < numUser → k < dim → U.get i k = 0) ∧
          (∀ j k, j < numService → k < dim → S.get j k = 0)))) := by
  have h5 : (0 : α) ≤ 0.5 := by norm_num
  have hA : ∀ i ∈ Finset.range numUser, ∀ j ∈ Finset.range numService,
      (0 : α) ≤ if |removedMatrix.get i j| > EPS then
            0.5 * (((removedMatrix.get i j - predMatrix.get i j) / removedMatrix.get i j)
              * ((removedMatrix.get i j - predMatrix.get i j) / removedMatrix.get i j))
          else 0 := by
    intro i _ j _
    split
    · exact mul_nonneg h5 (mul_self_nonneg _)
    · exact le_refl _
  have hUk : ∀ k ∈ Finset.range dim, ∀ i ∈ Finset.range numUser,
      (0 : α) ≤ 0.5 * lmda * (U.get i k * U.get i k) :=
    fun k _ i _ => mul_nonneg (mul_nonneg h5 hl) (mul_self_nonneg _)
  have hSk : ∀ k ∈ Finset.range dim, ∀ j ∈ Finset.range numService,
      (0 : α) ≤ 0.5 * lmda * (S.get j k * S.get j k) :=
    fun k _ j _ => mul_nonneg (mul_nonneg h5 hl) (mul_self_nonneg _)
  have hA' : ∀ i ∈ Finset.range numUser, (0 : α) ≤ ∑ j in Finset.range numService,
      if |removedMatrix.get i j| > EPS then
            0.5 * (((removedMatrix.get i j - predMatrix.get i j) / removedMatrix.get i j)
              * ((removedMatrix.get i j - predMatrix.get i j) / removedMatrix.get i j))
          else 0 := fun i hi => Finset.sum_nonneg (hA i hi)
  have hB' : ∀ k ∈ Finset.range dim, (0 : α) ≤
      (∑ i in Finset.range numUser, 0.5 * lmda * (U.get i k * U.get i k))
        + ∑ j in Finset.range numService, 0.5 * lmda * (S.get j k * S.get j k) :=
    fun k hk => add_nonneg (Finset.sum_nonneg (hUk k hk)) (Finset.sum_nonneg (hSk k hk))
  rw [loss_raw_sum]
  refine ⟨add_nonneg (Finset.sum_nonneg hA') (Finset.sum_nonneg hB'), ?_⟩
  rw [add_eq_zero_iff_of_nonneg (Finset.sum_nonneg hA') (Finset.sum_nonneg hB'),
    Finset.sum_eq_zero_iff_of_nonneg hA', Finset.sum_eq_zero_iff_of_nonneg hB']
  constructor
  · rintro ⟨h1, h2⟩
    constructor
    · intro i j hi hj hobs
      have hi' := Finset.mem_range.mpr hi
      have hj' := Finset.mem_range.mpr hj
      have := (Finset.sum_eq_zero_iff_of_nonneg (hA i hi')).mp (h1 i hi') j hj'
      rw [if_pos hobs, half_sq_eq_zero_iff] at this
      have hne : removedMatrix.get i j ≠ 0 := by
        intro h0
        rw [h0, abs_zero] at hobs
        exact absurd hobs (not_lt.mpr (le_of_lt EPS_pos))
      rcases div_eq_zero_iff.mp this with h | h
      · exact (sub_eq_zero.mp h).symm
      · exact absurd h hne
    · by_cases hz : lmda = 0
      · exact Or.inl hz
      · right
        constructor
        · intro i k hi hk
          have hk' := Finset.mem_range.mpr hk
          have hsum := (add_eq_zero_iff_of_nonneg (Finset.sum_nonneg (hUk k hk'))
            (Finset.sum_nonneg (hSk k hk'))).mp (h2 k hk')
          have := (Finset.sum_eq_zero_iff_of_nonneg (hUk k hk')).mp hsum.1 i
            (Finset.mem_range.mpr hi)
          rcases (half_lmda_sq_eq_zero_iff _ _).mp this with h | h
          · exact absurd h hz
          · exact h
        · intro j k hj hk
          have hk' := Finset.mem_range.mpr hk
          have hsum := (add_eq_zero_iff_of_nonneg (Finset.sum_nonneg (hUk k hk'))
            (Finset.sum_nonneg (hSk k hk'))).mp (h2 k hk')
          have := (Finset.sum_eq_zero_iff_of_nonneg (hSk k hk')).mp hsum.2 j
            (Finset.mem_range.mpr hj)
          rcases (half_lmda_sq_eq_zero_iff _ _).mp this with h | h
          · exact absurd h hz
          · exact h
  · rintro ⟨h1, h2⟩
    constructor
    · intro i hi
      apply Finset.sum_eq_zero
      intro j hj
      split
      · rename_i hobs
        rw [h1 i j (Finset.mem_range.mp hi) (Finset.mem_range.mp hj) hobs]
        simp
      · rfl
    · intro k hk
      have hUz : ∀ i ∈ Finset.range numUser, (0.5 : α) * lmda * (U.get i k * U.get i k) = 0 := by
        intro i hi
        rw [half_lmda_sq_eq_zero_iff]
        rcases h2 with h | h
        · exact Or.inl h
        · exact Or.inr (h.1 i k (Finset.mem_range.mp hi) (Finset.mem_range.mp hk))
      have hSz : ∀ j ∈ Finset.range numService,
          (0.5 : α) * lmda * (S.get j k * S.get j k) = 0 := by
        intro j hj
        rw [half_lmda_sq_eq_zero_iff]
        rcases h2 with h | h
        · exact Or.inl h
        · exact Or.inr (h.2 j k (Finset.mem_range.mp hj) (Finset.mem_range.mp hk))
      rw [Finset.sum_eq_zero hUz, Finset.sum_eq_zero hSz, add_zero]

/-- The zero case of C19 with `lambda = 0` and `P = R = [[1 / 2]]`: the loss is `0`. -/
theorem loss_nonneg_zero_iff_witness :
    (0 : ℝ) ≤ 0 ∧
    loss (vector2Matrix (fun _ => 3) 1 1) (vector2Matrix (fun _ => 4) 1 1)
      (vector2Matrix (fun _ => 1 / 2) 1 1) (vector2Matrix (fun _ => 1 / 2) 1 1)
      (0 : ℝ) 1 1 1 = 0 :=
  ⟨le_refl 0,
    (loss_nonneg_zero_iff (vector2Matrix (fun _ => 3) 1 1) (vector2Matrix (fun _ => 4) 1 1)
      (vector2Matrix (fun _ => 1 / 2) 1 1) (vector2Matrix (fun _ => 1 / 2) 1 1)
      (0 : ℝ) 1 1 1 (le_refl 0)).2.mpr ⟨fun _ _ _ _ _ => rfl, Or.inl rfl⟩⟩

end c_AMF
